import Mathlib

/-!
Verification of the CMIP-IMR cross-department process-mining engine
(services/evaluation.py, services/repair.py, services/discovery.py,
services/cmip_imr.py) against its natural-language specification.

The Python code is shallowly embedded: Petri nets become lists of named
places, transitions and arcs (the source keeps the unique-names invariant,
so object identity is modelled by name equality); pm4py markings become
association lists from place names to token counts; floats become rationals;
the pm4py token-replay and precision oracles, which are external library
calls, are modelled as `Except`-valued inputs (an `Except.error` models the
exception that the source catches).  Every definition is translated from the
source file and function named in its doc comment; definitions whose names
carry a `spec` prefix are instead written from the specification's words,
for comparison against the code.
-/

namespace CMIPIMR

/-- One entry of the list produced by the pm4py token-replay oracle, holding
the four token counters read by `calculate_fitness_token_replay`
(services/evaluation.py). -/
structure TraceResult where
  consumed_tokens : Nat
  produced_tokens : Nat
  missing_tokens : Nat
  remaining_tokens : Nat
deriving DecidableEq, Repr

/-- Details dictionary returned by `calculate_fitness_token_replay`
(services/evaluation.py lines 48-59): either the token totals or the caught
exception text. -/
inductive FitnessDetails where
  | ok (total_consumed total_produced total_missing total_remaining trace_count : Nat)
  | err (msg : String)
deriving DecidableEq, Repr

/-- Accumulation loop of `calculate_fitness_token_replay`
(services/evaluation.py lines 31-40): the four token totals summed over the
replayed traces in order. -/
def replayTotals (traces : List TraceResult) : Nat × Nat × Nat × Nat :=
  traces.foldl
    (fun acc t =>
      (acc.1 + t.consumed_tokens, acc.2.1 + t.produced_tokens,
       acc.2.2.1 + t.missing_tokens, acc.2.2.2 + t.remaining_tokens))
    (0, 0, 0, 0)

/-- Embedding of `calculate_fitness_token_replay` (services/evaluation.py
lines 20-59).  The `token_replay.apply` oracle call is the `Except` input;
`Except.error` models the exception caught by the `try` block. -/
def calculate_fitness_token_replay (replay : Except String (List TraceResult)) :
    ℚ × FitnessDetails :=
  match replay with
  | Except.error e => (0, FitnessDetails.err e)
  | Except.ok replayed_traces =>
    let totals := replayTotals replayed_traces
    let total_consumed := totals.1
    let total_produced := totals.2.1
    let total_missing := totals.2.2.1
    let total_remaining := totals.2.2.2
    let fitness : ℚ :=
      if 0 < total_consumed + total_produced then
        (1/2) * (1 - (total_missing : ℚ) / ((max total_consumed 1 : Nat) : ℚ)) +
        (1/2) * (1 - (total_remaining : ℚ) / ((max total_produced 1 : Nat) : ℚ))
      else 0
    (max 0 (min 1 fitness),
     FitnessDetails.ok total_consumed total_produced total_missing total_remaining
       replayed_traces.length)

/-- Aggregate token-replay fitness exactly as the specification words it
(spec §4.5): half of one minus missing over max(consumed, 1), plus half of
one minus remaining over max(produced, 1), clamped to the unit interval,
with the totals summed over all replayed traces. -/
def specAggregateFitness (traces : List TraceResult) : ℚ :=
  let consumed := (traces.map (fun t => t.consumed_tokens)).sum
  let produced := (traces.map (fun t => t.produced_tokens)).sum
  let missing := (traces.map (fun t => t.missing_tokens)).sum
  let remaining := (traces.map (fun t => t.remaining_tokens)).sum
  max 0 (min 1
    ((1/2) * (1 - (missing : ℚ) / ((max consumed 1 : Nat) : ℚ)) +
     (1/2) * (1 - (remaining : ℚ) / ((max produced 1 : Nat) : ℚ))))

/-- Details value returned by `calculate_precision`
(services/evaluation.py lines 92-101). -/
inductive PrecisionDetails where
  | ok (precision : ℚ)
  | err (msg : String)
deriving DecidableEq, Repr

/-- Embedding of `calculate_precision` (services/evaluation.py lines 84-101);
the pm4py ETC-precision oracle call is the `Except` input. -/
def calculate_precision (prec : Except String ℚ) : ℚ × PrecisionDetails :=
  match prec with
  | Except.ok precision_value => (precision_value, PrecisionDetails.ok precision_value)
  | Except.error e => (0, PrecisionDetails.err e)

/-- Embedding of `calculate_f_measure` (services/evaluation.py
lines 104-110). -/
def calculate_f_measure (fitness precision : ℚ) : ℚ :=
  if fitness + precision = 0 then 0
  else 2 * fitness * precision / (fitness + precision)

/-- Metrics dictionary returned by `evaluate_model`
(services/evaluation.py lines 131-137). -/
structure EvalMetrics where
  fitness : ℚ
  precision : ℚ
  f_measure : ℚ
  fitness_details : FitnessDetails
  precision_details : PrecisionDetails
deriving DecidableEq, Repr

/-- Embedding of `evaluate_model` (services/evaluation.py lines 113-137) on
the token-replay path (`use_alignment = False`, the only path the pipeline
takes); the two oracle outcomes are the inputs. -/
def evaluate_model (replay : Except String (List TraceResult))
    (prec : Except String ℚ) : EvalMetrics :=
  let fitnessPair := calculate_fitness_token_replay replay
  let precisionPair := calculate_precision prec
  { fitness := fitnessPair.1
    precision := precisionPair.1
    f_measure := calculate_f_measure fitnessPair.1 precisionPair.1
    fitness_details := fitnessPair.2
    precision_details := precisionPair.2 }

/-- A node endpoint of an arc: a place or a transition, identified by its
name (the source keeps names unique within each node class, so object
identity is modelled by name). -/
inductive Node where
  | place (name : String)
  | trans (name : String)
deriving DecidableEq, Repr

/-- Name carried by a node. -/
def Node.nodeName : Node → String
  | Node.place n => n
  | Node.trans n => n

/-- A directed arc of a pm4py Petri net. -/
structure Arc where
  source : Node
  target : Node
deriving DecidableEq, Repr

/-- A pm4py transition: a name and an optional visible label (`none` models
a silent transition, Python `label = None`). -/
structure Transition where
  name : String
  label : Option String
deriving DecidableEq, Repr

/-- A pm4py Petri net: places (by name), transitions and arcs.  The pm4py
sets are modelled as lists in insertion order; `set.add` appends. -/
structure PNet where
  places : List String
  transitions : List Transition
  arcs : List Arc
deriving DecidableEq, Repr

/-- A pm4py `Marking`: a dictionary from places to token counts, modelled as
an association list in insertion order. -/
abbrev Marking := List (String × Nat)

/-- Membership test of a key in a marking (Python `place in marking`). -/
def markingHasKey (m : Marking) (k : String) : Bool :=
  m.any (fun q => q.1 == k)

/-- Assignment `marking[place] = v`: update the entry in place when the key
is present, append it otherwise (Python dicts keep insertion order). -/
def markingSet (m : Marking) (k : String) (v : Nat) : Marking :=
  if markingHasKey m k then m.map (fun q => if q.1 == k then (k, v) else q)
  else m ++ [(k, v)]

/-- Deletion `del marking[place]`. -/
def markingDel (m : Marking) (k : String) : Marking :=
  m.filter (fun q => q.1 != k)

/-- Lookup `marking.get(place, d)`. -/
def markingGetD (m : Marking) (k : String) (d : Nat) : Nat :=
  match m.find? (fun q => q.1 == k) with
  | some q => q.2
  | none => d

/-- Embedding of `petri_utils.add_arc_from_to`: constructs the arc and adds
it to the net, with no duplicate check. -/
def add_arc_from_to (source target : Node) (net : PNet) : PNet :=
  { net with arcs := net.arcs ++ [{ source := source, target := target }] }

/-- Embedding of `petri_utils.remove_arc`: removes the given arc (the first
equal occurrence, matching removal of the arc object). -/
def remove_arc (net : PNet) (a : Arc) : PNet :=
  { net with arcs := net.arcs.erase a }

/-- First transition of the net carrying the given visible label, as found
by the `for t in net.transitions: if t.label == task: break` loops of
services/repair.py. -/
def findTransWithLabel (net : PNet) (lbl : String) : Option Transition :=
  net.transitions.find? (fun t => t.label == some lbl)

/-- Arc-existence test `any(arc.source == s and arc.target == t for arc in
net.arcs)` used by the repair operators. -/
def hasArc (net : PNet) (source target : Node) : Bool :=
  net.arcs.any (fun a => a.source == source && a.target == target)

/-- Place-existence test by name (the `for p in net.places: if p.name == n`
search loops of services/repair.py). -/
def hasPlace (net : PNet) (name : String) : Bool :=
  net.places.any (fun p => p == name)

/-- First block of the message loop of `repair_message_arcs`
(services/repair.py lines 189-198): find the `MSG:` place, creating it when
missing. -/
def msgPlaceStage (msg_place_name : String) (acc : PNet × List String) :
    PNet × List String :=
  if hasPlace acc.1 msg_place_name then acc
  else ({ acc.1 with places := acc.1.places ++ [msg_place_name] },
        acc.2 ++ ["创建消息 place: " ++ msg_place_name])

/-- Second block of the message loop of `repair_message_arcs`
(services/repair.py lines 200-214): when a sender is recorded and a
transition carries its label, add the send arc unless present. -/
def msgSendStage (msg_place_name : String) (send_task : Option String)
    (acc : PNet × List String) : PNet × List String :=
  match send_task with
  | none => acc
  | some s =>
    match findTransWithLabel acc.1 s with
    | none => acc
    | some tr =>
      if hasArc acc.1 (Node.trans tr.name) (Node.place msg_place_name) then acc
      else (add_arc_from_to (Node.trans tr.name) (Node.place msg_place_name) acc.1,
            acc.2 ++ ["添加发送弧: " ++ s ++ " -> " ++ msg_place_name])

/-- Third block of the message loop of `repair_message_arcs`
(services/repair.py lines 216-230): when a receiver is recorded and a
transition carries its label, add the receive arc unless present. -/
def msgRecvStage (msg_place_name : String) (recv_task : Option String)
    (acc : PNet × List String) : PNet × List String :=
  match recv_task with
  | none => acc
  | some s =>
    match findTransWithLabel acc.1 s with
    | none => acc
    | some tr =>
      if hasArc acc.1 (Node.place msg_place_name) (Node.trans tr.name) then acc
      else (add_arc_from_to (Node.place msg_place_name) (Node.trans tr.name) acc.1,
            acc.2 ++ ["添加接收弧: " ++ msg_place_name ++ " -> " ++ s])

/-- Embedding of one iteration of the message loop of `repair_message_arcs`
(services/repair.py lines 187-230): find or create the `MSG:` place, then
add the missing send and receive arcs for the first transitions carrying the
sender and receiver labels.  A message maps to `(send_task, recv_task)`,
either side optional. -/
def repairMessageStep (acc : PNet × List String)
    (m : String × Option String × Option String) : PNet × List String :=
  msgRecvStage ("MSG:" ++ m.1) m.2.2
    (msgSendStage ("MSG:" ++ m.1) m.2.1
      (msgPlaceStage ("MSG:" ++ m.1) acc))

/-- Embedding of `repair_message_arcs` (services/repair.py lines 178-232). -/
def repair_message_arcs (net : PNet)
    (messages : List (String × Option String × Option String)) : PNet × List String :=
  messages.foldl repairMessageStep (net, [])

/-- Embedding of the request-arc inner loop of `repair_resource_arcs`
(services/repair.py lines 259-273). -/
def repairReqArcStep (res_place_name : String) (acc : PNet × List String)
    (task : String) : PNet × List String :=
  match findTransWithLabel acc.1 task with
  | none => acc
  | some req_trans =>
    if hasArc acc.1 (Node.place res_place_name) (Node.trans req_trans.name) then acc
    else (add_arc_from_to (Node.place res_place_name) (Node.trans req_trans.name) acc.1,
          acc.2 ++ ["添加请求弧: " ++ res_place_name ++ " -> " ++ task])

/-- Embedding of the release-arc inner loop of `repair_resource_arcs`
(services/repair.py lines 275-289). -/
def repairRelArcStep (res_place_name : String) (acc : PNet × List String)
    (task : String) : PNet × List String :=
  match findTransWithLabel acc.1 task with
  | none => acc
  | some rel_trans =>
    if hasArc acc.1 (Node.trans rel_trans.name) (Node.place res_place_name) then acc
    else (add_arc_from_to (Node.trans rel_trans.name) (Node.place res_place_name) acc.1,
          acc.2 ++ ["添加释放弧: " ++ task ++ " -> " ++ res_place_name])

/-- First block of the resource loop of `repair_resource_arcs`
(services/repair.py lines 246-257): find the `RES:` place, creating it and
writing `capacity` initial tokens when missing. -/
def resPlaceStage (res_place_name : String) (capacity : Nat)
    (acc : PNet × Marking × List String) : PNet × Marking × List String :=
  if hasPlace acc.1 res_place_name then acc
  else ({ acc.1 with places := acc.1.places ++ [res_place_name] },
        markingSet acc.2.1 res_place_name capacity,
        acc.2.2 ++ ["创建资源 place: " ++ res_place_name ++ " (容量=" ++ toString capacity ++ ")"])

/-- Embedding of one iteration of the resource loop of
`repair_resource_arcs` (services/repair.py lines 245-289): find or create
the `RES:` place (creation writes `capacity` tokens into the initial
marking), then add missing request and release arcs.  A resource maps to
`(req_tasks, rel_tasks)`. -/
def repairResourceStep (capacity : Nat) (acc : PNet × Marking × List String)
    (r : String × List String × List String) : PNet × Marking × List String :=
  let res_place_name := "RES:" ++ r.1
  let acc1 := resPlaceStage res_place_name capacity acc
  let req := r.2.1.foldl (repairReqArcStep res_place_name) (acc1.1, acc1.2.2)
  let rel := r.2.2.foldl (repairRelArcStep res_place_name) req
  (rel.1, acc1.2.1, rel.2)

/-- Embedding of `repair_resource_arcs` (services/repair.py lines 235-291). -/
def repair_resource_arcs (net : PNet)
    (resources : List (String × List String × List String))
    (initial_marking : Marking) (capacity : Nat) : PNet × Marking × List String :=
  resources.foldl (repairResourceStep capacity) (net, initial_marking, [])

/-- Embedding of the arc-redirection loop for one secondary transition in
`repair_sync_tasks` (services/repair.py lines 309-315): iterate over the
snapshot `list(net.arcs)`, redirecting every arc touching the secondary to
the primary. -/
def mergeSecondaryArcs (primary secondary : String) (net : PNet) : PNet :=
  net.arcs.foldl
    (fun acc arc =>
      if arc.source == Node.trans secondary then
        remove_arc (add_arc_from_to (Node.trans primary) arc.target acc) arc
      else if arc.target == Node.trans secondary then
        remove_arc (add_arc_from_to arc.source (Node.trans primary) acc) arc
      else acc)
    net

/-- Merging one secondary transition into the primary: redirect its arcs
(services/repair.py lines 308-315), then remove the transition itself
(line 317). -/
def syncMergeOne (primary : String) (n : PNet) (secondary : Transition) : PNet :=
  let n2 := mergeSecondaryArcs primary secondary.name n
  { n2 with transitions := n2.transitions.erase secondary }

/-- Embedding of one iteration of the sync loop of `repair_sync_tasks`
(services/repair.py lines 302-319): when more than one transition carries
the sync label, keep the first, redirect the arcs of each other one to it
and remove it. -/
def repairSyncStep (acc : PNet × List String) (sync_task : String) : PNet × List String :=
  let sync_trans := acc.1.transitions.filter (fun t => t.label == some sync_task)
  match sync_trans with
  | primary :: sec1 :: rest =>
    let net := (sec1 :: rest).foldl (syncMergeOne primary.name) acc.1
    (net,
     acc.2 ++ ["合并同步任务: " ++ sync_task ++ " (" ++ toString sync_trans.length ++ " -> 1)"])
  | _ => acc

/-- Embedding of `repair_sync_tasks` (services/repair.py lines 294-321). -/
def repair_sync_tasks (net : PNet) (sync_tasks : List String) : PNet × List String :=
  sync_tasks.foldl repairSyncStep (net, [])

/-- Embedding of the removal of one `RES:` place in
`remove_resource_constraints` (services/repair.py lines 337-344): remove all
arcs touching it, the place itself and its initial-marking entry. -/
def removeResPlaceStep (acc : PNet × Marking × List String) (place : String) :
    PNet × Marking × List String :=
  let net := acc.1
  let net := { net with
    arcs := net.arcs.filter
      (fun a => !(a.source == Node.place place || a.target == Node.place place)),
    places := net.places.erase place }
  let im := if markingHasKey acc.2.1 place then markingDel acc.2.1 place else acc.2.1
  (net, im, acc.2.2 ++ ["移除资源约束: " ++ place])

/-- Embedding of `remove_resource_constraints` (services/repair.py
lines 324-346). -/
def remove_resource_constraints (net : PNet) (initial_marking : Marking) :
    PNet × Marking × List String :=
  let places_to_remove := net.places.filter (fun p => p.startsWith "RES:")
  places_to_remove.foldl removeResPlaceStep (net, initial_marking, [])

/-- Embedding of one iteration of `adjust_resource_capacity`
(services/repair.py lines 358-365): the first place named `RES:<id>`, when
present, has its initial-marking entry set to the capacity. -/
def adjustCapacityStep (net : PNet) (capacity : Nat) (acc : Marking × List String)
    (res_id : String) : Marking × List String :=
  let res_place_name := "RES:" ++ res_id
  match net.places.find? (fun p => p == res_place_name) with
  | some place =>
    let old_capacity := markingGetD acc.1 place 1
    (markingSet acc.1 place capacity,
     acc.2 ++ ["调整资源容量: " ++ res_place_name ++ " (" ++ toString old_capacity ++
       " -> " ++ toString capacity ++ ")"])
  | none => acc

/-- Embedding of `adjust_resource_capacity` (services/repair.py
lines 349-367). -/
def adjust_resource_capacity (net : PNet) (initial_marking : Marking)
    (resources : List (String × List String × List String)) (capacity : Nat) :
    PNet × Marking × List String :=
  let res := resources.foldl (fun acc r => adjustCapacityStep net capacity acc r.1)
    (initial_marking, [])
  (net, res.1, res.2)

/-- Repair report dictionary built by `apply_ce_pnr` (services/repair.py
lines 409-417). -/
structure RepairReport where
  total_repairs : Nat
  message_repairs : Nat
  resource_repairs : Nat
  sync_repairs : Nat
  repair_actions : List String
  remove_resources : Bool
  resource_capacity : Nat
deriving DecidableEq, Repr

/-- Embedding of `apply_ce_pnr` (services/repair.py lines 370-419).  The
`copy.deepcopy` calls become value copies: the embedding operates on values,
and the returned triple never aliases the inputs. -/
def apply_ce_pnr (net : PNet) (initial_marking final_marking : Marking)
    (messages : List (String × Option String × Option String))
    (resources : List (String × List String × List String))
    (sync_tasks : List String)
    (remove_resources : Bool) (resource_capacity : Nat) :
    PNet × Marking × Marking × RepairReport :=
  let im := initial_marking
  let fm := final_marking
  let msgResult := repair_message_arcs net messages
  let resStage : PNet × Marking × List String × List String :=
    if remove_resources then
      let r := remove_resource_constraints msgResult.1 im
      (r.1, r.2.1, r.2.2, [])
    else
      let r := repair_resource_arcs msgResult.1 resources im resource_capacity
      if 1 < resource_capacity then
        let c := adjust_resource_capacity r.1 r.2.1 resources resource_capacity
        (c.1, c.2.1, r.2.2, c.2.2)
      else
        (r.1, r.2.1, r.2.2, [])
  let syncResult := repair_sync_tasks resStage.1 sync_tasks
  let msg_repairs := msgResult.2
  let res_repairs := resStage.2.2.1
  let cap_repairs := resStage.2.2.2
  let sync_repairs := syncResult.2
  let all_repairs := msg_repairs ++ res_repairs ++ cap_repairs ++ sync_repairs
  (syncResult.1, resStage.2.1, fm,
   { total_repairs := all_repairs.length
     message_repairs := msg_repairs.length
     resource_repairs := res_repairs.length
     sync_repairs := sync_repairs.length
     repair_actions := all_repairs
     remove_resources := remove_resources
     resource_capacity := resource_capacity })

/-- One department's discovered net with its markings, an entry of the
`nets` dictionary consumed by `merge_petri_nets` (services/discovery.py). -/
structure DeptNet where
  dept : String
  net : PNet
  im : Marking
  fm : Marking
deriving DecidableEq, Repr

/-- Working state of `merge_petri_nets`: the integrated net, the integrated
markings, and the `place_map` and `trans_map` dictionaries from
(department, original name) to integrated name. -/
structure MergeState where
  inet : PNet
  iim : Marking
  ifm : Marking
  place_map : List ((String × String) × String)
  trans_map : List ((String × String) × String)
deriving DecidableEq, Repr

/-- Dictionary lookup used for `place_map` and `trans_map`. -/
def mapLookup (m : List ((String × String) × String)) (k : String × String) :
    Option String :=
  match m.find? (fun e => e.1 == k) with
  | some e => some e.2
  | none => none

/-- Embedding of the place-copy loop body of `merge_petri_nets`
(services/discovery.py lines 149-158): namespace the place as
`<dept>:<name>`, record it in `place_map`, and carry the department's
initial and final marking entries over. -/
def mergePlaceStep (dept : String) (im fm : Marking) (st : MergeState)
    (p : String) : MergeState :=
  let new_name := dept ++ ":" ++ p
  let st := { st with
    inet := { st.inet with places := st.inet.places ++ [new_name] },
    place_map := st.place_map ++ [((dept, p), new_name)] }
  let st :=
    match im.find? (fun q => q.1 == p) with
    | some q => { st with iim := markingSet st.iim new_name q.2 }
    | none => st
  match fm.find? (fun q => q.1 == p) with
  | some q => { st with ifm := markingSet st.ifm new_name q.2 }
  | none => st

/-- Embedding of the transition-copy loop body of `merge_petri_nets`
(services/discovery.py lines 160-172): a transition labelled with a sync
task is renamed `SYNC:<label>`, and when a transition of that name already
exists it is reused instead of added; every other transition is added under
the name `<dept>:<name>`. -/
def mergeTransStep (dept : String) (sync_tasks : List String) (st : MergeState)
    (t : Transition) : MergeState :=
  let isSync :=
    match t.label with
    | some l => sync_tasks.contains l
    | none => false
  let new_name :=
    match t.label with
    | some l => if sync_tasks.contains l then "SYNC:" ++ l else dept ++ ":" ++ t.name
    | none => dept ++ ":" ++ t.name
  if isSync && st.inet.transitions.any (fun u => u.name == new_name) then
    { st with trans_map := st.trans_map ++ [((dept, t.name), new_name)] }
  else
    { st with
      inet := { st.inet with
        transitions := st.inet.transitions ++ [{ name := new_name, label := t.label }] },
      trans_map := st.trans_map ++ [((dept, t.name), new_name)] }

/-- Embedding of the arc-copy loop body of `merge_petri_nets`
(services/discovery.py lines 174-182): endpoints are mapped through
`place_map` and `trans_map`; a missing entry would raise a `KeyError` in the
source (only possible on ill-formed input nets) and is modelled by skipping
the arc. -/
def mergeArcStep (dept : String) (st : MergeState) (arc : Arc) : MergeState :=
  let endpoints :=
    match arc.source with
    | Node.place pn =>
      (Option.map Node.place (mapLookup st.place_map (dept, pn)),
       Option.map Node.trans (mapLookup st.trans_map (dept, arc.target.nodeName)))
    | Node.trans tn =>
      (Option.map Node.trans (mapLookup st.trans_map (dept, tn)),
       Option.map Node.place (mapLookup st.place_map (dept, arc.target.nodeName)))
  match endpoints with
  | (some s, some t) => { st with inet := add_arc_from_to s t st.inet }
  | _ => st

/-- Embedding of the per-department body of `merge_petri_nets`
(services/discovery.py lines 148-182): copy places, then transitions, then
arcs. -/
def mergeDeptStep (sync_tasks : List String) (st : MergeState) (d : DeptNet) :
    MergeState :=
  let st := d.net.places.foldl (mergePlaceStep d.dept d.im d.fm) st
  let st := d.net.transitions.foldl (mergeTransStep d.dept sync_tasks) st
  d.net.arcs.foldl (mergeArcStep d.dept) st

/-- Embedding of the message-place loop body of `merge_petri_nets`
(services/discovery.py lines 184-194): create the `MSG:` place, then add an
arc from every transition whose label equals the sender and an arc to every
transition whose label equals the receiver (`None` labels compare equal to a
`None` endpoint, as in the source). -/
def mergeMsgStep (st : MergeState) (m : String × Option String × Option String) :
    MergeState :=
  let msg_place := "MSG:" ++ m.1
  let st := { st with inet := { st.inet with places := st.inet.places ++ [msg_place] } }
  { st with
    inet := st.inet.transitions.foldl
      (fun n t =>
        let n :=
          if t.label == m.2.1 then
            add_arc_from_to (Node.trans t.name) (Node.place msg_place) n
          else n
        if t.label == m.2.2 then
          add_arc_from_to (Node.place msg_place) (Node.trans t.name) n
        else n)
      st.inet }

/-- Embedding of the resource-place loop body of `merge_petri_nets`
(services/discovery.py lines 196-208): create the `RES:` place with one
initial token, then add arcs from the place to every requesting transition
and from every releasing transition to the place. -/
def mergeResStep (st : MergeState) (r : String × List String × List String) :
    MergeState :=
  let res_place := "RES:" ++ r.1
  let st := { st with
    inet := { st.inet with places := st.inet.places ++ [res_place] },
    iim := markingSet st.iim res_place 1 }
  { st with
    inet := st.inet.transitions.foldl
      (fun n t =>
        let isReq := match t.label with | some l => r.2.1.contains l | none => false
        let isRel := match t.label with | some l => r.2.2.contains l | none => false
        let n :=
          if isReq then add_arc_from_to (Node.place res_place) (Node.trans t.name) n
          else n
        if isRel then add_arc_from_to (Node.trans t.name) (Node.place res_place) n
        else n)
      st.inet }

/-- Embedding of `merge_petri_nets` (services/discovery.py lines 131-210). -/
def merge_petri_nets (nets : List DeptNet)
    (messages : List (String × Option String × Option String))
    (resources : List (String × List String × List String))
    (sync_tasks : List String) : PNet × Marking × Marking :=
  let st0 : MergeState :=
    { inet := { places := [], transitions := [], arcs := [] },
      iim := [], ifm := [], place_map := [], trans_map := [] }
  let st := nets.foldl (mergeDeptStep sync_tasks) st0
  let st := messages.foldl mergeMsgStep st
  let st := resources.foldl mergeResStep st
  (st.inet, st.iim, st.ifm)

/-- A net together with its initial and final markings; entries of the store
that models Python object identity for nets during the repair loop. -/
structure SEntry where
  net : PNet
  im : Marking
  fm : Marking
deriving DecidableEq, Repr

/-- Policy selection of the CE-PNR loop body (services/cmip_imr.py
lines 148-155): remove resources when allowed and fitness is below the
threshold; otherwise use capacity 2 when fitness is below 0.9 and 1
otherwise. -/
def select_repair_policy (remove_resources_if_low_fitness : Bool)
    (fitness_threshold fitness : ℚ) : Bool × Nat :=
  let remove_resources :=
    remove_resources_if_low_fitness && decide (fitness < fitness_threshold)
  let resource_capacity :=
    if !remove_resources && decide (fitness < (9 : ℚ)/10) then 2 else 1
  (remove_resources, resource_capacity)

/-- State of the `while` loop of `run_cmip_imr` (services/cmip_imr.py
lines 129-201).  Python variables hold references to net objects; the
`store` lists every net triple ever allocated (index 0 is N0, each
`apply_ce_pnr` call appends the deep copy it returns), and `cur` and `best`
are the references held by the `current_*` and `best_*` variables.  `halted`
records that a `break` was taken. -/
structure LoopState where
  store : List SEntry
  cur : Nat
  curMetrics : EvalMetrics
  best : Nat
  bestMetrics : EvalMetrics
  bestF : ℚ
  repairReport : Option RepairReport
  iteration : Nat
  halted : Bool
deriving Repr

/-- One iteration of the CE-PNR `while` loop of `run_cmip_imr`
(services/cmip_imr.py lines 144-195), parameterised by the conformance
evaluator `evalM` (the `evaluate_model` call on the global log, an oracle
from the net and markings to metrics). -/
def cmipStep (evalM : PNet → Marking → Marking → EvalMetrics)
    (messages : List (String × Option String × Option String))
    (resources : List (String × List String × List String))
    (sync_tasks : List String)
    (target_f_measure fitness_threshold : ℚ)
    (remove_resources_if_low_fitness : Bool)
    (st : LoopState) : LoopState :=
  if st.halted then st
  else
    match st.store.get? st.cur with
    | none => { st with halted := true }
    | some entry =>
      let iteration := st.iteration + 1
      let policy := select_repair_policy remove_resources_if_low_fitness
        fitness_threshold st.curMetrics.fitness
      let repaired := apply_ce_pnr entry.net entry.im entry.fm messages resources
        sync_tasks policy.1 policy.2
      let store := st.store ++ [{ net := repaired.1, im := repaired.2.1, fm := repaired.2.2.1 }]
      let ridx := st.store.length
      let rmetrics := evalM repaired.1 repaired.2.1 repaired.2.2.1
      let upd :=
        if st.bestF < rmetrics.f_measure then
          (ridx, rmetrics, rmetrics.f_measure, some repaired.2.2.2)
        else
          (st.best, st.bestMetrics, st.bestF, st.repairReport)
      let halted :=
        decide (target_f_measure ≤ rmetrics.f_measure) ||
        decide (|rmetrics.f_measure - st.curMetrics.f_measure| < (5 : ℚ)/1000)
      { store := store, cur := ridx, curMetrics := rmetrics,
        best := upd.1, bestMetrics := upd.2.1, bestF := upd.2.2.1,
        repairReport := upd.2.2.2, iteration := iteration, halted := halted }

/-- The CE-PNR loop: at most `fuel` iterations of `cmipStep` (the source
runs `while iteration < max_iterations`, so the fuel is `max_iterations`;
a taken `break` makes the remaining steps identities). -/
def cmipLoop (evalM : PNet → Marking → Marking → EvalMetrics)
    (messages : List (String × Option String × Option String))
    (resources : List (String × List String × List String))
    (sync_tasks : List String)
    (target_f_measure fitness_threshold : ℚ)
    (remove_resources_if_low_fitness : Bool) :
    Nat → LoopState → LoopState
  | 0, st => st
  | Nat.succ n, st =>
    cmipLoop evalM messages resources sync_tasks target_f_measure fitness_threshold
      remove_resources_if_low_fitness n
      (cmipStep evalM messages resources sync_tasks target_f_measure fitness_threshold
        remove_resources_if_low_fitness st)

/-- Loop state as `run_cmip_imr` sets it up before the loop
(services/cmip_imr.py lines 131-142): current and best both reference N0,
best metrics and best F are N0's, no repair report, iteration 0. -/
def initLoopState (n0 : SEntry) (n0_metrics : EvalMetrics) : LoopState :=
  { store := [n0], cur := 0, curMetrics := n0_metrics,
    best := 0, bestMetrics := n0_metrics, bestF := n0_metrics.f_measure,
    repairReport := none, iteration := 0, halted := false }

/-- Embedding of the repair phase of `run_cmip_imr` (services/cmip_imr.py
lines 129-201): run the loop from N0; the final state's `best` fields are
packaged as N1 and `repairReport` and `iteration` as the report fields. -/
def run_cmip_imr_loop (evalM : PNet → Marking → Marking → EvalMetrics)
    (messages : List (String × Option String × Option String))
    (resources : List (String × List String × List String))
    (sync_tasks : List String)
    (target_f_measure fitness_threshold : ℚ)
    (remove_resources_if_low_fitness : Bool)
    (max_iterations : Nat) (n0 : SEntry) (n0_metrics : EvalMetrics) : LoopState :=
  cmipLoop evalM messages resources sync_tasks target_f_measure fitness_threshold
    remove_resources_if_low_fitness max_iterations (initLoopState n0 n0_metrics)

/-- Number of transitions carrying the given visible label. -/
def countLabel (ts : List Transition) (s : String) : Nat :=
  ts.countP (fun t => t.label == some s)

/-- Invariant of integration: every sync activity labels at most one
transition, and such a transition is named `SYNC:<label>`. -/
def syncInv (sync_tasks : List String) (ts : List Transition) : Prop :=
  ∀ s ∈ sync_tasks, countLabel ts s ≤ 1 ∧
    ∀ t ∈ ts, t.label = some s → t.name = "SYNC:" ++ s

/-- The second net extends the first: same transitions, places and arcs only
appended.  The repair operators that create places and arcs produce
extensions. -/
def netExtends (net net2 : PNet) : Prop :=
  net2.transitions = net.transitions ∧
  (∃ ps, net2.places = net.places ++ ps) ∧
  (∃ bs, net2.arcs = net.arcs ++ bs)

/-- A message is fully repaired in a net: its place exists, and whenever a
side is recorded and its label is carried by some transition, the
corresponding arc of the first such transition exists. -/
def msgEstablished (net : PNet) (m : String × Option String × Option String) : Prop :=
  hasPlace net ("MSG:" ++ m.1) = true ∧
  (∀ s, m.2.1 = some s → ∀ tr, findTransWithLabel net s = some tr →
    hasArc net (Node.trans tr.name) (Node.place ("MSG:" ++ m.1)) = true) ∧
  (∀ s, m.2.2 = some s → ∀ tr, findTransWithLabel net s = some tr →
    hasArc net (Node.place ("MSG:" ++ m.1)) (Node.trans tr.name) = true)

/-- A resource is fully repaired in a net: its place exists, and every
recorded requesting and releasing task whose label is carried by some
transition has the corresponding arc of the first such transition. -/
def resEstablished (net : PNet) (r : String × List String × List String) : Prop :=
  hasPlace net ("RES:" ++ r.1) = true ∧
  (∀ task ∈ r.2.1, ∀ tr, findTransWithLabel net task = some tr →
    hasArc net (Node.place ("RES:" ++ r.1)) (Node.trans tr.name) = true) ∧
  (∀ task ∈ r.2.2, ∀ tr, findTransWithLabel net task = some tr →
    hasArc net (Node.trans tr.name) (Node.place ("RES:" ++ r.1)) = true)

/-- At most one arc between any ordered (source, target) pair. -/
def noDupArcs (net : PNet) : Prop :=
  ∀ a : Arc, net.arcs.count a ≤ 1

/-- Every entry of the marking with the given key holds exactly the given
value. -/
def markingPinned (m : Marking) (k : String) (v : Nat) : Prop :=
  ∀ q ∈ m, q.1 = k → q = (k, v)

/-- A department net in which two transitions carry the sync label `S` and
share the input place `p` (such a net is a legal inductive-miner output:
labels may repeat across transitions). -/
def exSyncDeptNet : PNet :=
  { places := ["p"],
    transitions := [{ name := "t1", label := some "S" },
                    { name := "t2", label := some "S" }],
    arcs := [{ source := Node.place "p", target := Node.trans "t1" },
             { source := Node.place "p", target := Node.trans "t2" }] }

/-- A one-department input for `merge_petri_nets` built from
`exSyncDeptNet`. -/
def exDeptNets : List DeptNet :=
  [{ dept := "D", net := exSyncDeptNet, im := [], fm := [] }]

/-- A net holding two transitions labelled with the sync task `S` that both
feed the place `p`, as handed to `repair_sync_tasks`. -/
def exDupSyncNet : PNet :=
  { places := ["p"],
    transitions := [{ name := "t1", label := some "S" },
                    { name := "t2", label := some "S" }],
    arcs := [{ source := Node.trans "t1", target := Node.place "p" },
             { source := Node.trans "t2", target := Node.place "p" }] }

/-- All-zero metrics value, used as a concrete evaluation outcome. -/
def zeroMetrics : EvalMetrics :=
  { fitness := 0, precision := 0, f_measure := 0,
    fitness_details := FitnessDetails.ok 0 0 0 0 0,
    precision_details := PrecisionDetails.ok 0 }

/-- A concrete empty net with empty markings. -/
def emptyEntry : SEntry :=
  { net := { places := [], transitions := [], arcs := [] }, im := [], fm := [] }

/-- Folding the four counter sums of the replay loop equals the four
independent map-sums. -/
theorem replayTotals_eq_sums (traces : List TraceResult) :
    replayTotals traces =
      ((traces.map (fun t => t.consumed_tokens)).sum,
       (traces.map (fun t => t.produced_tokens)).sum,
       (traces.map (fun t => t.missing_tokens)).sum,
       (traces.map (fun t => t.remaining_tokens)).sum) := by
  have h : ∀ (a b c d : Nat),
      traces.foldl
        (fun acc t =>
          (acc.1 + t.consumed_tokens, acc.2.1 + t.produced_tokens,
           acc.2.2.1 + t.missing_tokens, acc.2.2.2 + t.remaining_tokens))
        (a, b, c, d) =
      (a + (traces.map (fun t => t.consumed_tokens)).sum,
       b + (traces.map (fun t => t.produced_tokens)).sum,
       c + (traces.map (fun t => t.missing_tokens)).sum,
       d + (traces.map (fun t => t.remaining_tokens)).sum) := by
    induction traces with
    | nil => intro a b c d; simp
    | cons x xs ih =>
      intro a b c d
      simp only [List.foldl_cons, List.map_cons, List.sum_cons, ih]
      simp [Prod.ext_iff, Nat.add_assoc]
  simpa using h 0 0 0 0

/-- Claim C2, counterexample.  On an empty replay result (the outcome of
token replay on an empty log) the code returns fitness 0, while the
specification's clamped formula yields 1, so the aggregate fitness does not
always equal the specification's formula. -/
theorem c2_fitness_spec_counterexample :
    (calculate_fitness_token_replay (Except.ok ([] : List TraceResult))).1 = 0 ∧
    specAggregateFitness ([] : List TraceResult) = 1 ∧
    (calculate_fitness_token_replay (Except.ok ([] : List TraceResult))).1 ≠
      specAggregateFitness ([] : List TraceResult) := by
  have h1 : (calculate_fitness_token_replay (Except.ok ([] : List TraceResult))).1 = 0 := by
    simp [calculate_fitness_token_replay, replayTotals]
  have h2 : specAggregateFitness ([] : List TraceResult) = 1 := by
    norm_num [specAggregateFitness]
  refine ⟨h1, h2, ?_⟩
  rw [h1, h2]
  norm_num

/-- Claim C2, amended.  The aggregate token-replay fitness returned by
`calculate_fitness_token_replay` equals the specification's clamped formula
whenever the summed consumed and produced totals are not both zero; when
they are both zero the code returns 0 instead of the formula's value 1. -/
theorem c2_fitness_formula_guarded (traces : List TraceResult) :
    (calculate_fitness_token_replay (Except.ok traces)).1 =
      if 0 < (traces.map (fun t => t.consumed_tokens)).sum +
             (traces.map (fun t => t.produced_tokens)).sum
      then specAggregateFitness traces
      else 0 := by
  simp only [calculate_fitness_token_replay, replayTotals_eq_sums, specAggregateFitness]
  by_cases h : 0 < (traces.map (fun t => t.consumed_tokens)).sum +
      (traces.map (fun t => t.produced_tokens)).sum
  · simp [h, Function.comp_def]
  · simp [h]

/-- The harmonic mean is zero when the second argument is zero. -/
theorem calculate_f_measure_right_zero (f : ℚ) : calculate_f_measure f 0 = 0 := by
  unfold calculate_f_measure
  by_cases h : f + 0 = 0
  · simp [h]
  · simp [h]

/-- The harmonic mean is zero when the first argument is zero. -/
theorem calculate_f_measure_left_zero (p : ℚ) : calculate_f_measure 0 p = 0 := by
  unfold calculate_f_measure
  by_cases h : (0 : ℚ) + p = 0
  · simp [h]
  · simp [h]

/-- Claim C3, counterexample.  When only the token replay raises and the
precision oracle succeeds with value one half, `evaluate_model` returns
precision one half, not the precision 0 stated by the claim. -/
theorem c3_error_metrics_counterexample :
    (evaluate_model (Except.error "replay boom") (Except.ok ((1 : ℚ)/2))).precision
      = (1 : ℚ)/2 ∧
    ((1 : ℚ)/2 ≠ 0) := by
  refine ⟨?_, ?_⟩
  · simp [evaluate_model, calculate_precision]
  · norm_num

/-- Claim C3, amended.  When the token replay or the precision oracle raises
inside `evaluate_model`, the returned F-measure is 0; the component that
raised has its metric set to 0 and carries the error descriptor in its
details; the other metric is computed normally.  `evaluate_model` is total,
so no exception escapes and the outer repair loop continues. -/
theorem c3_error_metrics_amended (replay : Except String (List TraceResult))
    (prec : Except String ℚ) :
    (((∃ e, replay = Except.error e) ∨ (∃ e, prec = Except.error e)) →
      (evaluate_model replay prec).f_measure = 0) ∧
    (∀ e, replay = Except.error e →
      (evaluate_model replay prec).fitness = 0 ∧
      (evaluate_model replay prec).fitness_details = FitnessDetails.err e) ∧
    (∀ e, prec = Except.error e →
      (evaluate_model replay prec).precision = 0 ∧
      (evaluate_model replay prec).precision_details = PrecisionDetails.err e) := by
  refine ⟨?_, ?_, ?_⟩
  · rintro (⟨e, rfl⟩ | ⟨e, rfl⟩)
    · simp [evaluate_model, calculate_fitness_token_replay,
        calculate_f_measure_left_zero]
    · simp [evaluate_model, calculate_precision, calculate_f_measure_right_zero]
  · rintro e rfl
    simp [evaluate_model, calculate_fitness_token_replay]
  · rintro e rfl
    simp [evaluate_model, calculate_precision]

/-- Claim C3, witness.  Both oracles raising on a concrete input yields all
three metrics equal to zero with both error descriptors recorded. -/
theorem c3_error_metrics_witness :
    (evaluate_model (Except.error "replay boom") (Except.error "precision boom")).f_measure
      = 0 ∧
    (evaluate_model (Except.error "replay boom") (Except.error "precision boom")).fitness
      = 0 ∧
    (evaluate_model (Except.error "replay boom") (Except.error "precision boom")).precision
      = 0 := by
  have h := c3_error_metrics_amended (Except.error "replay boom")
    (Except.error "precision boom")
  exact ⟨h.1 (Or.inl ⟨"replay boom", rfl⟩),
    (h.2.1 "replay boom" rfl).1, (h.2.2 "precision boom" rfl).1⟩

/-- Claim C9.  The final marking returned by `apply_ce_pnr` equals the final
marking passed in: it is deep-copied once and threaded through untouched; no
repair operator receives it, only the initial marking is ever edited. -/
theorem c9_final_marking_preserved (net : PNet) (initial_marking final_marking : Marking)
    (messages : List (String × Option String × Option String))
    (resources : List (String × List String × List String))
    (sync_tasks : List String) (remove_resources : Bool) (resource_capacity : Nat) :
    (apply_ce_pnr net initial_marking final_marking messages resources sync_tasks
      remove_resources resource_capacity).2.2.1 = final_marking := rfl

/-- One loop step keeps `best_f` equal to the best metrics' F-measure and
never decreases it (the best is replaced only on strict improvement). -/
theorem cmipStep_best_inv (evalM : PNet → Marking → Marking → EvalMetrics)
    (messages : List (String × Option String × Option String))
    (resources : List (String × List String × List String))
    (sync_tasks : List String) (t f : ℚ) (ra : Bool) (st : LoopState)
    (h : st.bestF = st.bestMetrics.f_measure) :
    ((cmipStep evalM messages resources sync_tasks t f ra st).bestF =
      (cmipStep evalM messages resources sync_tasks t f ra st).bestMetrics.f_measure) ∧
    st.bestF ≤ (cmipStep evalM messages resources sync_tasks t f ra st).bestF := by
  unfold cmipStep
  split
  · exact ⟨h, le_refl _⟩
  · split
    · exact ⟨h, le_refl _⟩
    · dsimp only
      split
      · next hlt => exact ⟨rfl, le_of_lt hlt⟩
      · exact ⟨h, le_refl _⟩

/-- The loop keeps `best_f` equal to the best metrics' F-measure and never
decreases it. -/
theorem cmipLoop_best_inv (evalM : PNet → Marking → Marking → EvalMetrics)
    (messages : List (String × Option String × Option String))
    (resources : List (String × List String × List String))
    (sync_tasks : List String) (t f : ℚ) (ra : Bool) (n : Nat) (st : LoopState)
    (h : st.bestF = st.bestMetrics.f_measure) :
    ((cmipLoop evalM messages resources sync_tasks t f ra n st).bestF =
      (cmipLoop evalM messages resources sync_tasks t f ra n st).bestMetrics.f_measure) ∧
    st.bestF ≤ (cmipLoop evalM messages resources sync_tasks t f ra n st).bestF := by
  induction n generalizing st with
  | zero => exact ⟨h, le_refl _⟩
  | succ n ih =>
    have hs := cmipStep_best_inv evalM messages resources sync_tasks t f ra st h
    have hl := ih _ hs.1
    exact ⟨hl.1, le_trans hs.2 hl.2⟩

/-- Claim C1.  For every run of the repair loop, the metrics returned for N1
satisfy `n1.metrics.f_measure ≥ n0.metrics.f_measure`: the best-so-far is
initialized to N0's metrics and replaced only when a repaired net's
F-measure is strictly greater. -/
theorem c1_repair_monotonicity_of_best (evalM : PNet → Marking → Marking → EvalMetrics)
    (messages : List (String × Option String × Option String))
    (resources : List (String × List String × List String))
    (sync_tasks : List String) (target_f_measure fitness_threshold : ℚ)
    (remove_resources_if_low_fitness : Bool) (max_iterations : Nat)
    (n0 : SEntry) (n0_metrics : EvalMetrics) :
    n0_metrics.f_measure ≤
      (run_cmip_imr_loop evalM messages resources sync_tasks target_f_measure
        fitness_threshold remove_resources_if_low_fitness max_iterations
        n0 n0_metrics).bestMetrics.f_measure := by
  have h := cmipLoop_best_inv evalM messages resources sync_tasks target_f_measure
    fitness_threshold remove_resources_if_low_fitness max_iterations
    (initLoopState n0 n0_metrics) rfl
  have h2 : (initLoopState n0 n0_metrics).bestF = n0_metrics.f_measure := rfl
  rw [run_cmip_imr_loop, ← h.1, ← h2]
  exact h.2

/-- One loop step preserves every already-stored entry: the step either
leaves the store unchanged or appends the freshly repaired copy. -/
theorem cmipStep_store_preserved (evalM : PNet → Marking → Marking → EvalMetrics)
    (messages : List (String × Option String × Option String))
    (resources : List (String × List String × List String))
    (sync_tasks : List String) (t f : ℚ) (ra : Bool) (st : LoopState)
    (j : Nat) (x : SEntry) (hx : st.store.get? j = some x) :
    (cmipStep evalM messages resources sync_tasks t f ra st).store.get? j = some x := by
  unfold cmipStep
  split
  · exact hx
  · split
    · exact hx
    · dsimp only
      have hlt : j < st.store.length := by
        rcases List.get?_eq_some.mp hx with ⟨hl, _⟩
        exact hl
      rw [List.get?_append hlt]
      exact hx

/-- The loop preserves every already-stored entry. -/
theorem cmipLoop_store_preserved (evalM : PNet → Marking → Marking → EvalMetrics)
    (messages : List (String × Option String × Option String))
    (resources : List (String × List String × List String))
    (sync_tasks : List String) (t f : ℚ) (ra : Bool) (n : Nat) (st : LoopState)
    (j : Nat) (x : SEntry) (hx : st.store.get? j = some x) :
    (cmipLoop evalM messages resources sync_tasks t f ra n st).store.get? j = some x := by
  induction n generalizing st with
  | zero => exact hx
  | succ n ih =>
    exact ih _ (cmipStep_store_preserved evalM messages resources sync_tasks t f ra st j x hx)

/-- Claim C8.  Repair never mutates N0 or its markings: every `apply_ce_pnr`
call works on a fresh deep copy appended to the store, so after the full
CE-PNR loop the store entry holding N0 (index 0, written when integration
produced it) still holds exactly the original places, transitions, arcs and
markings. -/
theorem c8_n0_never_mutated (evalM : PNet → Marking → Marking → EvalMetrics)
    (messages : List (String × Option String × Option String))
    (resources : List (String × List String × List String))
    (sync_tasks : List String) (target_f_measure fitness_threshold : ℚ)
    (remove_resources_if_low_fitness : Bool) (max_iterations : Nat)
    (n0 : SEntry) (n0_metrics : EvalMetrics) :
    (run_cmip_imr_loop evalM messages resources sync_tasks target_f_measure
      fitness_threshold remove_resources_if_low_fitness max_iterations
      n0 n0_metrics).store.get? 0 = some n0 := by
  exact cmipLoop_store_preserved evalM messages resources sync_tasks target_f_measure
    fitness_threshold remove_resources_if_low_fitness max_iterations
    (initLoopState n0 n0_metrics) 0 n0 rfl

/-- The loop never decreases the iteration counter. -/
theorem cmipLoop_iteration_mono (evalM : PNet → Marking → Marking → EvalMetrics)
    (messages : List (String × Option String × Option String))
    (resources : List (String × List String × List String))
    (sync_tasks : List String) (t f : ℚ) (ra : Bool) (n : Nat) (st : LoopState) :
    st.iteration ≤ (cmipLoop evalM messages resources sync_tasks t f ra n st).iteration := by
  induction n generalizing st with
  | zero => exact le_refl _
  | succ n ih =>
    refine le_trans ?_ (ih (cmipStep evalM messages resources sync_tasks t f ra st))
    unfold cmipStep
    split
    · exact le_refl _
    · split
      · exact le_refl _
      · exact Nat.le_succ _

/-- When no evaluation can exceed the best-so-far F-measure, a loop step
leaves the best index, best metrics, best F and repair report unchanged. -/
theorem cmipStep_no_improvement (evalM : PNet → Marking → Marking → EvalMetrics)
    (messages : List (String × Option String × Option String))
    (resources : List (String × List String × List String))
    (sync_tasks : List String) (t f : ℚ) (ra : Bool) (st : LoopState) (bound : ℚ)
    (hEval : ∀ net im fm, (evalM net im fm).f_measure ≤ bound)
    (hb : st.bestF = bound) :
    (cmipStep evalM messages resources sync_tasks t f ra st).best = st.best ∧
    (cmipStep evalM messages resources sync_tasks t f ra st).bestMetrics = st.bestMetrics ∧
    (cmipStep evalM messages resources sync_tasks t f ra st).bestF = st.bestF ∧
    (cmipStep evalM messages resources sync_tasks t f ra st).repairReport = st.repairReport := by
  unfold cmipStep
  split
  · exact ⟨rfl, rfl, rfl, rfl⟩
  · split
    · exact ⟨rfl, rfl, rfl, rfl⟩
    · dsimp only
      split
      · next hlt =>
        exfalso
        rw [hb] at hlt
        exact absurd (hEval _ _ _) (not_le.mpr hlt)
      · exact ⟨rfl, rfl, rfl, rfl⟩

/-- When no evaluation can exceed the best-so-far F-measure, the whole loop
leaves the best index, best metrics, best F and repair report unchanged. -/
theorem cmipLoop_no_improvement (evalM : PNet → Marking → Marking → EvalMetrics)
    (messages : List (String × Option String × Option String))
    (resources : List (String × List String × List String))
    (sync_tasks : List String) (t f : ℚ) (ra : Bool) (n : Nat) (st : LoopState) (bound : ℚ)
    (hEval : ∀ net im fm, (evalM net im fm).f_measure ≤ bound)
    (hb : st.bestF = bound) :
    (cmipLoop evalM messages resources sync_tasks t f ra n st).best = st.best ∧
    (cmipLoop evalM messages resources sync_tasks t f ra n st).bestMetrics = st.bestMetrics ∧
    (cmipLoop evalM messages resources sync_tasks t f ra n st).bestF = st.bestF ∧
    (cmipLoop evalM messages resources sync_tasks t f ra n st).repairReport = st.repairReport := by
  induction n generalizing st with
  | zero => exact ⟨rfl, rfl, rfl, rfl⟩
  | succ n ih =>
    have hs := cmipStep_no_improvement evalM messages resources sync_tasks t f ra st bound
      hEval hb
    have hl := ih (cmipStep evalM messages resources sync_tasks t f ra st)
      (by rw [hs.2.2.1]; exact hb)
    exact ⟨hs.1 ▸ hl.1, hs.2.1 ▸ hl.2.1, hs.2.2.1 ▸ hl.2.2.1, hs.2.2.2 ▸ hl.2.2.2⟩

/-- Claim C10.  If no repaired model can achieve an F-measure strictly
greater than N0's, the loop returns with `repair_report = None`, with the
best reference still pointing at N0's net and markings and the best metrics
still N0's metrics — and yet at least one iteration ran whenever
`max_iterations ≥ 1`. -/
theorem c10_no_improvement_keeps_n0 (evalM : PNet → Marking → Marking → EvalMetrics)
    (messages : List (String × Option String × Option String))
    (resources : List (String × List String × List String))
    (sync_tasks : List String) (target_f_measure fitness_threshold : ℚ)
    (remove_resources_if_low_fitness : Bool) (max_iterations : Nat)
    (n0 : SEntry) (n0_metrics : EvalMetrics)
    (hEval : ∀ net im fm, (evalM net im fm).f_measure ≤ n0_metrics.f_measure) :
    (run_cmip_imr_loop evalM messages resources sync_tasks target_f_measure
      fitness_threshold remove_resources_if_low_fitness max_iterations
      n0 n0_metrics).repairReport = none ∧
    (run_cmip_imr_loop evalM messages resources sync_tasks target_f_measure
      fitness_threshold remove_resources_if_low_fitness max_iterations
      n0 n0_metrics).store.get?
      (run_cmip_imr_loop evalM messages resources sync_tasks target_f_measure
        fitness_threshold remove_resources_if_low_fitness max_iterations
        n0 n0_metrics).best = some n0 ∧
    (run_cmip_imr_loop evalM messages resources sync_tasks target_f_measure
      fitness_threshold remove_resources_if_low_fitness max_iterations
      n0 n0_metrics).bestMetrics = n0_metrics ∧
    (1 ≤ max_iterations →
      1 ≤ (run_cmip_imr_loop evalM messages resources sync_tasks target_f_measure
        fitness_threshold remove_resources_if_low_fitness max_iterations
        n0 n0_metrics).iteration) := by
  have hni := cmipLoop_no_improvement evalM messages resources sync_tasks target_f_measure
    fitness_threshold remove_resources_if_low_fitness max_iterations
    (initLoopState n0 n0_metrics) n0_metrics.f_measure hEval rfl
  have hstore := c8_n0_never_mutated evalM messages resources sync_tasks target_f_measure
    fitness_threshold remove_resources_if_low_fitness max_iterations n0 n0_metrics
  simp only [run_cmip_imr_loop] at hstore ⊢
  refine ⟨hni.2.2.2.trans rfl, ?_, hni.2.1.trans rfl, ?_⟩
  · rw [hni.1]
    exact hstore
  · intro hmax
    rcases Nat.exists_eq_add_of_le hmax with ⟨k, hk⟩
    subst hk
    show 1 ≤ (cmipLoop evalM messages resources sync_tasks target_f_measure
      fitness_threshold remove_resources_if_low_fitness (1 + k)
      (initLoopState n0 n0_metrics)).iteration
    rw [Nat.add_comm 1 k]
    have hone : (cmipStep evalM messages resources sync_tasks target_f_measure
        fitness_threshold remove_resources_if_low_fitness
        (initLoopState n0 n0_metrics)).iteration = 1 := rfl
    calc 1 = (cmipStep evalM messages resources sync_tasks target_f_measure
        fitness_threshold remove_resources_if_low_fitness
        (initLoopState n0 n0_metrics)).iteration := hone.symm
      _ ≤ _ := by
        rw [show k + 1 = Nat.succ k from rfl]
        exact cmipLoop_iteration_mono evalM messages resources sync_tasks target_f_measure
          fitness_threshold remove_resources_if_low_fitness k _

/-- Claim C10, witness.  A run in which every evaluation returns zero
metrics on a concrete empty net keeps N0 as the best with no repair report
while still running one iteration. -/
theorem c10_no_improvement_witness :
    (run_cmip_imr_loop (fun _ _ _ => zeroMetrics) [] [] [] ((95 : ℚ)/100) ((8 : ℚ)/10)
      true 1 emptyEntry zeroMetrics).repairReport = none ∧
    (1 ≤ (run_cmip_imr_loop (fun _ _ _ => zeroMetrics) [] [] [] ((95 : ℚ)/100) ((8 : ℚ)/10)
      true 1 emptyEntry zeroMetrics).iteration) := by
  have h := c10_no_improvement_keeps_n0 (fun _ _ _ => zeroMetrics) [] [] []
    ((95 : ℚ)/100) ((8 : ℚ)/10) true 1 emptyEntry zeroMetrics
    (fun _ _ _ => le_refl _)
  exact ⟨h.1, h.2.2.2 (le_refl 1)⟩

/-- Claim C7.  The CE-PNR policy is selected from the current metrics
exactly as specified: resources are removed if and only if removal is
allowed and fitness is below the threshold, in which case the capacity is 1;
otherwise the capacity is 2 when fitness is below 0.9 and 1 otherwise.  The
operators are applied in the fixed order message repair, resource removal or
resource repair, capacity adjustment when the capacity exceeds 1, then sync
merge; and every loop iteration stores exactly the `apply_ce_pnr` result for
the policy selected from the current metrics. -/
theorem c7_policy_selection_and_order (ra : Bool) (thr fitness : ℚ) :
    ((select_repair_policy ra thr fitness).1 = true ↔ (ra = true ∧ fitness < thr)) ∧
    ((select_repair_policy ra thr fitness).1 = true →
      (select_repair_policy ra thr fitness).2 = 1) ∧
    ((select_repair_policy ra thr fitness).1 = false →
      (select_repair_policy ra thr fitness).2 =
        if fitness < (9 : ℚ)/10 then 2 else 1) ∧
    (∀ (net : PNet) (im fm : Marking)
        (messages : List (String × Option String × Option String))
        (resources : List (String × List String × List String))
        (sync_tasks : List String) (rm : Bool) (cap : Nat),
      (apply_ce_pnr net im fm messages resources sync_tasks rm cap).1 =
        (repair_sync_tasks
          (if rm then
            (remove_resource_constraints (repair_message_arcs net messages).1 im).1
           else
            if 1 < cap then
              (adjust_resource_capacity
                (repair_resource_arcs (repair_message_arcs net messages).1 resources im cap).1
                (repair_resource_arcs (repair_message_arcs net messages).1 resources im cap).2.1
                resources cap).1
            else
              (repair_resource_arcs (repair_message_arcs net messages).1 resources im cap).1)
          sync_tasks).1) ∧
    (∀ (st : LoopState) (entry : SEntry) (evalM : PNet → Marking → Marking → EvalMetrics)
        (messages : List (String × Option String × Option String))
        (resources : List (String × List String × List String))
        (sync_tasks : List String) (t : ℚ),
      st.halted = false → st.store.get? st.cur = some entry →
      (cmipStep evalM messages resources sync_tasks t thr ra st).store =
        st.store ++
          [{ net := (apply_ce_pnr entry.net entry.im entry.fm messages resources sync_tasks
                (select_repair_policy ra thr st.curMetrics.fitness).1
                (select_repair_policy ra thr st.curMetrics.fitness).2).1,
             im := (apply_ce_pnr entry.net entry.im entry.fm messages resources sync_tasks
                (select_repair_policy ra thr st.curMetrics.fitness).1
                (select_repair_policy ra thr st.curMetrics.fitness).2).2.1,
             fm := (apply_ce_pnr entry.net entry.im entry.fm messages resources sync_tasks
                (select_repair_policy ra thr st.curMetrics.fitness).1
                (select_repair_policy ra thr st.curMetrics.fitness).2).2.2.1 }]) := by
  refine ⟨?_, ?_, ?_, ?_, ?_⟩
  · simp [select_repair_policy, Bool.and_eq_true, decide_eq_true_iff]
  · intro h
    simp only [select_repair_policy] at h ⊢
    rw [h]
    simp
  · intro h
    simp only [select_repair_policy] at h ⊢
    rw [h]
    by_cases hc : fitness < (9 : ℚ)/10 <;> simp [hc]
  · intro net im fm messages resources sync_tasks rm cap
    by_cases hrm : rm <;> by_cases hcap : 1 < cap <;>
      simp [apply_ce_pnr, hrm, hcap]
  · intro st entry evalM messages resources sync_tasks t hh hget
    simp only [cmipStep, hh, hget]
    rfl

/-- Claim C7, witness.  Concrete policy selections: with removal allowed,
threshold 0.8 and fitness 0.5 the capacity stays 1; with fitness 0.85 (no
removal) the capacity becomes 2; and one concrete loop step appends exactly
the repair of the current entry under the selected policy. -/
theorem c7_policy_witness :
    (select_repair_policy true ((8 : ℚ)/10) ((1 : ℚ)/2)).2 = 1 ∧
    (select_repair_policy true ((8 : ℚ)/10) ((85 : ℚ)/100)).2 = 2 ∧
    (cmipStep (fun _ _ _ => zeroMetrics) [] [] [] ((95 : ℚ)/100) ((8 : ℚ)/10) true
        (initLoopState emptyEntry zeroMetrics)).store =
      (initLoopState emptyEntry zeroMetrics).store ++
        [{ net := (apply_ce_pnr emptyEntry.net emptyEntry.im emptyEntry.fm [] [] []
              (select_repair_policy true ((8 : ℚ)/10)
                (initLoopState emptyEntry zeroMetrics).curMetrics.fitness).1
              (select_repair_policy true ((8 : ℚ)/10)
                (initLoopState emptyEntry zeroMetrics).curMetrics.fitness).2).1,
           im := (apply_ce_pnr emptyEntry.net emptyEntry.im emptyEntry.fm [] [] []
              (select_repair_policy true ((8 : ℚ)/10)
                (initLoopState emptyEntry zeroMetrics).curMetrics.fitness).1
              (select_repair_policy true ((8 : ℚ)/10)
                (initLoopState emptyEntry zeroMetrics).curMetrics.fitness).2).2.1,
           fm := (apply_ce_pnr emptyEntry.net emptyEntry.im emptyEntry.fm [] [] []
              (select_repair_policy true ((8 : ℚ)/10)
                (initLoopState emptyEntry zeroMetrics).curMetrics.fitness).1
              (select_repair_policy true ((8 : ℚ)/10)
                (initLoopState emptyEntry zeroMetrics).curMetrics.fitness).2).2.2.1 }] := by
  refine ⟨?_, ?_, ?_⟩
  · exact (c7_policy_selection_and_order true ((8 : ℚ)/10) ((1 : ℚ)/2)).2.1
      (by norm_num [select_repair_policy])
  · have h := (c7_policy_selection_and_order true ((8 : ℚ)/10) ((85 : ℚ)/100)).2.2.1
      (by norm_num [select_repair_policy])
    rw [h]
    norm_num
  · exact (c7_policy_selection_and_order true ((8 : ℚ)/10) 0).2.2.2.2
      (initLoopState emptyEntry zeroMetrics) emptyEntry (fun _ _ _ => zeroMetrics)
      [] [] [] ((95 : ℚ)/100) rfl rfl

/-- Folding a step function that preserves a property preserves it. -/
theorem foldl_preserves (P : α → Prop) (f : α → β → α) (l : List β) (init : α)
    (h0 : P init) (hstep : ∀ a b, P a → P (f a b)) : P (l.foldl f init) := by
  induction l generalizing init with
  | nil => exact h0
  | cons x xs ih => exact ih _ (hstep _ _ h0)

/-- A fold whose steps keep the transitions of the merge state keeps them. -/
theorem foldl_transitions_eq (f : MergeState → β → MergeState) (l : List β)
    (st : MergeState) (h : ∀ a b, (f a b).inet.transitions = a.inet.transitions) :
    (l.foldl f st).inet.transitions = st.inet.transitions := by
  induction l generalizing st with
  | nil => rfl
  | cons x xs ih => rw [List.foldl_cons, ih, h]

/-- A fold whose steps keep the transitions of a net keeps them. -/
theorem foldl_net_transitions_eq (f : PNet → β → PNet) (l : List β) (n : PNet)
    (h : ∀ a b, (f a b).transitions = a.transitions) :
    (l.foldl f n).transitions = n.transitions := by
  induction l generalizing n with
  | nil => rfl
  | cons x xs ih => rw [List.foldl_cons, ih, h]

/-- Copying a place never touches the transitions of the integrated net. -/
theorem mergePlaceStep_transitions (dept : String) (im fm : Marking)
    (st : MergeState) (p : String) :
    (mergePlaceStep dept im fm st p).inet.transitions = st.inet.transitions := by
  unfold mergePlaceStep
  dsimp only
  split <;> split <;> rfl

/-- Copying an arc never touches the transitions of the integrated net. -/
theorem mergeArcStep_transitions (dept : String) (st : MergeState) (arc : Arc) :
    (mergeArcStep dept st arc).inet.transitions = st.inet.transitions := by
  unfold mergeArcStep
  dsimp only
  split <;> simp [add_arc_from_to]

/-- Injecting a message place never touches the transitions. -/
theorem mergeMsgStep_transitions (st : MergeState)
    (m : String × Option String × Option String) :
    (mergeMsgStep st m).inet.transitions = st.inet.transitions := by
  unfold mergeMsgStep
  dsimp only
  exact foldl_net_transitions_eq _ _ _ (fun a b => by
    split <;> split <;> simp [add_arc_from_to])

/-- Injecting a resource place never touches the transitions. -/
theorem mergeResStep_transitions (st : MergeState)
    (r : String × List String × List String) :
    (mergeResStep st r).inet.transitions = st.inet.transitions := by
  unfold mergeResStep
  dsimp only
  exact foldl_net_transitions_eq _ _ _ (fun a b => by
    split <;> split <;> simp [add_arc_from_to])

/-- Appending a transition whose label is no sync task keeps the sync
invariant. -/
theorem syncInv_append_nonsync (sync_tasks : List String) (ts : List Transition)
    (t : Transition) (hinv : syncInv sync_tasks ts)
    (ht : ∀ s ∈ sync_tasks, t.label ≠ some s) :
    syncInv sync_tasks (ts ++ [t]) := by
  intro s hs
  obtain ⟨hc, hn⟩ := hinv s hs
  refine ⟨?_, ?_⟩
  · unfold countLabel
    rw [List.countP_append]
    have : (t.label == some s) = false := by
      simp only [beq_eq_false_iff_ne, ne_eq]
      exact ht s hs
    simp [List.countP_cons, this]
    exact hc
  · intro u hu hl
    rcases List.mem_append.mp hu with hu | hu
    · exact hn u hu hl
    · rcases List.mem_singleton.mp hu with rfl
      exact absurd hl (ht s hs)

/-- Appending the shared `SYNC:` transition for a sync label that no
existing transition name carries keeps the sync invariant. -/
theorem syncInv_append_sync (sync_tasks : List String) (ts : List Transition)
    (l : String) (hl : l ∈ sync_tasks) (hinv : syncInv sync_tasks ts)
    (hnone : ∀ u ∈ ts, u.name ≠ "SYNC:" ++ l) :
    syncInv sync_tasks (ts ++ [{ name := "SYNC:" ++ l, label := some l }]) := by
  intro s hs
  obtain ⟨hc, hn⟩ := hinv s hs
  by_cases hsl : s = l
  · subst hsl
    have hzero : countLabel ts s = 0 := by
      unfold countLabel
      rw [List.countP_eq_zero]
      intro u hu hp
      exact hnone u hu (hn u hu (eq_of_beq hp))
    refine ⟨?_, ?_⟩
    · unfold countLabel
      rw [List.countP_append]
      unfold countLabel at hzero
      simp [List.countP_cons, hzero]
    · intro u hu hl2
      rcases List.mem_append.mp hu with hu | hu
      · exact hn u hu hl2
      · rcases List.mem_singleton.mp hu with rfl
        rfl
  · have hne : (some l : Option String) ≠ some s := by
      intro hh
      exact hsl (Option.some.inj hh).symm
    refine ⟨?_, ?_⟩
    · unfold countLabel
      rw [List.countP_append]
      have : ((some l : Option String) == some s) = false := by
        simp only [beq_eq_false_iff_ne, ne_eq]
        exact hne
      simp [List.countP_cons, this]
      exact hc
    · intro u hu hl2
      rcases List.mem_append.mp hu with hu | hu
      · exact hn u hu hl2
      · rcases List.mem_singleton.mp hu with rfl
        exact absurd hl2 hne

/-- Copying one transition during integration preserves the sync
invariant: sync labels map to the shared `SYNC:` name and are added at most
once. -/
theorem mergeTransStep_syncInv (dept : String) (sync_tasks : List String)
    (st : MergeState) (t : Transition) (h : syncInv sync_tasks st.inet.transitions) :
    syncInv sync_tasks (mergeTransStep dept sync_tasks st t).inet.transitions := by
  unfold mergeTransStep
  cases ht : t.label with
  | none =>
    dsimp only
    simp only [Bool.false_and, Bool.false_eq_true, if_false]
    exact syncInv_append_nonsync sync_tasks st.inet.transitions _ h
      (fun s _ => by simp)
  | some l =>
    by_cases hcon : sync_tasks.contains l
    · dsimp only
      simp only [hcon, if_true, Bool.true_and]
      by_cases hany : st.inet.transitions.any (fun u => u.name == "SYNC:" ++ l)
      · simp only [hany, if_true]
        exact h
      · simp only [hany, Bool.false_eq_true, if_false]
        refine syncInv_append_sync sync_tasks st.inet.transitions l ?_ h ?_
        · exact List.elem_iff.mp hcon
        · intro u hu
          have := List.any_eq_false.mp (Bool.not_eq_true _ |>.mp hany) u hu
          simpa using this
    · dsimp only
      have hconf : sync_tasks.contains l = false := Bool.not_eq_true _ |>.mp hcon
      simp only [hconf, Bool.false_and, Bool.false_eq_true, if_false]
      refine syncInv_append_nonsync sync_tasks st.inet.transitions _ h ?_
      intro s hs
      simp only [ne_eq, Option.some.injEq]
      intro hls
      subst hls
      exact hcon (List.elem_iff.mpr hs)

/-- Merging one department's net preserves the sync invariant. -/
theorem mergeDeptStep_syncInv (sync_tasks : List String) (st : MergeState)
    (d : DeptNet) (h : syncInv sync_tasks st.inet.transitions) :
    syncInv sync_tasks (mergeDeptStep sync_tasks st d).inet.transitions := by
  unfold mergeDeptStep
  dsimp only
  rw [foldl_transitions_eq _ _ _ (mergeArcStep_transitions d.dept)]
  refine foldl_preserves (fun (x : MergeState) => syncInv sync_tasks x.inet.transitions) _ _ _ ?_ ?_
  · show syncInv sync_tasks
      (List.foldl (mergePlaceStep d.dept d.im d.fm) st d.net.places).inet.transitions
    rw [foldl_transitions_eq _ _ _ (mergePlaceStep_transitions d.dept d.im d.fm)]
    exact h
  · exact fun a b ha => mergeTransStep_syncInv d.dept sync_tasks a b ha

/-- The integrated net satisfies the sync invariant. -/
theorem merge_petri_nets_syncInv (nets : List DeptNet)
    (messages : List (String × Option String × Option String))
    (resources : List (String × List String × List String))
    (sync_tasks : List String) :
    syncInv sync_tasks (merge_petri_nets nets messages resources sync_tasks).1.transitions := by
  unfold merge_petri_nets
  dsimp only
  rw [foldl_transitions_eq _ _ _ mergeResStep_transitions]
  rw [foldl_transitions_eq _ _ _ mergeMsgStep_transitions]
  refine foldl_preserves (fun (x : MergeState) => syncInv sync_tasks x.inet.transitions) _ _ _ ?_ ?_
  · intro s _
    exact ⟨by simp [countLabel], fun t ht => absurd ht (List.not_mem_nil t)⟩
  · exact fun a b ha => mergeDeptStep_syncInv sync_tasks a b ha

/-- Claim C5.  After integration there is at most one transition labelled
with any given sync activity: `merge_petri_nets` renames sync-labelled
transitions to `SYNC:<label>` and reuses an already-added transition of that
name instead of creating a second one. -/
theorem c5_unique_sync_after_integration (nets : List DeptNet)
    (messages : List (String × Option String × Option String))
    (resources : List (String × List String × List String))
    (sync_tasks : List String) (s : String) (hs : s ∈ sync_tasks) :
    countLabel (merge_petri_nets nets messages resources sync_tasks).1.transitions s ≤ 1 :=
  (merge_petri_nets_syncInv nets messages resources sync_tasks s hs).1

/-- Claim C5, witness.  The concrete one-department integration with sync
task S yields at most one transition labelled S (here exactly one). -/
theorem c5_unique_sync_witness :
    countLabel (merge_petri_nets exDeptNets [] [] ["S"]).1.transitions "S" ≤ 1 ∧
    countLabel (merge_petri_nets exDeptNets [] [] ["S"]).1.transitions "S" = 1 := by
  refine ⟨c5_unique_sync_after_integration exDeptNets [] [] ["S"] "S" (by simp), ?_⟩
  rfl

/-- Claim C4, counterexample.  `add_arc_from_to` performs no duplicate
check: integrating a department net whose two transitions share the sync
label S and an input place yields two arcs from the namespaced place to the
shared `SYNC:S` transition, and `repair_sync_tasks` on a net with duplicate
S-labelled transitions feeding one place leaves two identical arcs. -/
theorem c4_duplicate_arcs_counterexample :
    ((merge_petri_nets exDeptNets [] [] ["S"]).1.arcs.count
      { source := Node.place "D:p", target := Node.trans "SYNC:S" }) = 2 ∧
    ((repair_sync_tasks exDupSyncNet ["S"]).1.arcs.count
      { source := Node.trans "t1", target := Node.place "p" }) = 2 := by
  exact ⟨rfl, rfl⟩

/-- An arc-existence test succeeds exactly when the arc is a member. -/
theorem hasArc_iff_mem (net : PNet) (s t : Node) :
    hasArc net s t = true ↔ ({ source := s, target := t } : Arc) ∈ net.arcs := by
  unfold hasArc
  rw [List.any_eq_true]
  constructor
  · rintro ⟨a, ha, hab⟩
    simp only [Bool.and_eq_true, beq_iff_eq] at hab
    obtain ⟨hs, ht⟩ := hab
    cases a
    simp only at hs ht
    subst hs
    subst ht
    exact ha
  · intro h
    exact ⟨_, h, by simp⟩

/-- Adding an arc that is not yet present keeps all pair-counts at most
one. -/
theorem count_le_one_add_arc (net : PNet) (s t : Node)
    (h : noDupArcs net) (hno : hasArc net s t = false) :
    noDupArcs (add_arc_from_to s t net) := by
  intro a
  unfold add_arc_from_to
  dsimp only
  rw [List.count_append]
  by_cases ha : a = { source := s, target := t }
  · subst ha
    have hnm : ({ source := s, target := t } : Arc) ∉ net.arcs := by
      intro hm
      rw [(hasArc_iff_mem net s t).mpr hm] at hno
      exact Bool.noConfusion hno
    rw [List.count_eq_zero.mpr hnm]
    simp
  · have hz : List.count a [({ source := s, target := t } : Arc)] = 0 := by
      rw [List.count_eq_zero]
      simp only [List.mem_singleton]
      exact ha
    rw [hz, Nat.add_zero]
    exact h a

/-- The place-creation block adds no arcs. -/
theorem msgPlaceStage_arcs (name : String) (acc : PNet × List String) :
    (msgPlaceStage name acc).1.arcs = acc.1.arcs := by
  unfold msgPlaceStage
  split <;> rfl

/-- The guarded send-arc block keeps all pair-counts at most one. -/
theorem msgSendStage_noDup (name : String) (task : Option String)
    (acc : PNet × List String) (h : noDupArcs acc.1) :
    noDupArcs (msgSendStage name task acc).1 := by
  unfold msgSendStage
  split
  · exact h
  · split
    · exact h
    · split
      · exact h
      · next hno => exact count_le_one_add_arc _ _ _ h (by simpa using hno)

/-- The guarded receive-arc block keeps all pair-counts at most one. -/
theorem msgRecvStage_noDup (name : String) (task : Option String)
    (acc : PNet × List String) (h : noDupArcs acc.1) :
    noDupArcs (msgRecvStage name task acc).1 := by
  unfold msgRecvStage
  split
  · exact h
  · split
    · exact h
    · split
      · exact h
      · next hno => exact count_le_one_add_arc _ _ _ h (by simpa using hno)

/-- One message-repair iteration keeps all pair-counts at most one. -/
theorem repairMessageStep_noDup (acc : PNet × List String)
    (m : String × Option String × Option String) (h : noDupArcs acc.1) :
    noDupArcs (repairMessageStep acc m).1 := by
  unfold repairMessageStep
  refine msgRecvStage_noDup _ _ _ (msgSendStage_noDup _ _ _ ?_)
  have harcs := msgPlaceStage_arcs ("MSG:" ++ m.1) acc
  intro a
  rw [harcs]
  exact h a

/-- The guarded request-arc block keeps all pair-counts at most one. -/
theorem repairReqArcStep_noDup (name : String) (acc : PNet × List String)
    (task : String) (h : noDupArcs acc.1) :
    noDupArcs (repairReqArcStep name acc task).1 := by
  unfold repairReqArcStep
  split
  · exact h
  · split
    · exact h
    · next hno => exact count_le_one_add_arc _ _ _ h (by simpa using hno)

/-- The guarded release-arc block keeps all pair-counts at most one. -/
theorem repairRelArcStep_noDup (name : String) (acc : PNet × List String)
    (task : String) (h : noDupArcs acc.1) :
    noDupArcs (repairRelArcStep name acc task).1 := by
  unfold repairRelArcStep
  split
  · exact h
  · split
    · exact h
    · next hno => exact count_le_one_add_arc _ _ _ h (by simpa using hno)

/-- One resource-repair iteration keeps all pair-counts at most one. -/
theorem repairResourceStep_noDup (capacity : Nat) (acc : PNet × Marking × List String)
    (r : String × List String × List String) (h : noDupArcs acc.1) :
    noDupArcs (repairResourceStep capacity acc r).1 := by
  unfold repairResourceStep
  dsimp only
  refine foldl_preserves (fun (x : PNet × List String) => noDupArcs x.1) _ _ _ ?_
    (fun a b ha => repairRelArcStep_noDup _ a b ha)
  refine foldl_preserves (fun (x : PNet × List String) => noDupArcs x.1) _ _ _ ?_
    (fun a b ha => repairReqArcStep_noDup _ a b ha)
  intro a
  have harcs : (resPlaceStage ("RES:" ++ r.1) capacity acc).1.arcs = acc.1.arcs := by
    unfold resPlaceStage
    split <;> rfl
  show ((resPlaceStage ("RES:" ++ r.1) capacity acc).1).arcs.count a ≤ 1
  rw [harcs]
  exact h a

/-- Claim C4, amended.  The duplicate-arc guards live in
`repair_message_arcs` and `repair_resource_arcs`: starting from a net with
at most one arc per ordered (source, target) pair, both operators preserve
that bound, each arc addition being guarded by an explicit existence check.
(`merge_petri_nets` and `repair_sync_tasks` carry no such guard and can
duplicate arcs, as the counterexample shows.) -/
theorem c4_guarded_repairs_no_duplicate_arcs (net : PNet)
    (messages : List (String × Option String × Option String))
    (resources : List (String × List String × List String))
    (im : Marking) (cap : Nat) (h : noDupArcs net) :
    noDupArcs (repair_message_arcs net messages).1 ∧
    noDupArcs (repair_resource_arcs net resources im cap).1 := by
  constructor
  · unfold repair_message_arcs
    exact foldl_preserves (fun (x : PNet × List String) => noDupArcs x.1) _ _ _ h
      (fun a b ha => repairMessageStep_noDup a b ha)
  · unfold repair_resource_arcs
    exact foldl_preserves (fun (x : PNet × Marking × List String) => noDupArcs x.1) _ _ _ h
      (fun a b ha => repairResourceStep_noDup cap a b ha)

/-- Claim C4, witness.  Repairing one message and one resource into the
empty net leaves at most one arc per ordered pair. -/
theorem c4_guarded_repairs_witness :
    noDupArcs (repair_message_arcs emptyEntry.net [("m1", some "A", some "B")]).1 ∧
    noDupArcs (repair_resource_arcs emptyEntry.net [("r1", ["A"], ["B"])] [] 1).1 := by
  have h := c4_guarded_repairs_no_duplicate_arcs emptyEntry.net
    [("m1", some "A", some "B")] [("r1", ["A"], ["B"])] [] 1
    (fun a => by simp [emptyEntry])
  exact ⟨h.1, h.2⟩

/-- A fold of extension-producing steps extends the start value. -/
theorem foldl_extends (f : α → β → α) (ext : α → α → Prop) (l : List β) (init : α)
    (hrefl : ∀ a, ext a a) (htrans : ∀ a b c, ext a b → ext b c → ext a c)
    (hext : ∀ a b, ext a (f a b)) : ext init (l.foldl f init) := by
  induction l generalizing init with
  | nil => exact hrefl init
  | cons x xs ih => exact htrans _ _ _ (hext init x) (ih (f init x))

/-- A fold whose steps establish a per-element property that is monotone
under the extension produced by the steps establishes it for every
element. -/
theorem foldl_establishes (f : α → β → α) (ext : α → α → Prop) (E : α → β → Prop)
    (l : List β) (init : α)
    (hrefl : ∀ a, ext a a) (htrans : ∀ a b c, ext a b → ext b c → ext a c)
    (hext : ∀ a b, ext a (f a b)) (hest : ∀ a b, E (f a b) b)
    (hmono : ∀ a a2 b, ext a a2 → E a b → E a2 b) :
    ∀ b ∈ l, E (l.foldl f init) b := by
  induction l generalizing init with
  | nil => intro b hb; exact absurd hb (List.not_mem_nil b)
  | cons x xs ih =>
    intro b hb
    rcases List.mem_cons.mp hb with rfl | hb
    · exact hmono _ _ _ (foldl_extends f ext xs (f init b) hrefl htrans hext) (hest init b)
    · exact ih (f init x) b hb

/-- A fold all of whose steps fix the start value returns it. -/
theorem foldl_id_of (f : α → β → α) (l : List β) (init : α) :
    (∀ b ∈ l, f init b = init) → l.foldl f init = init := by
  induction l with
  | nil => intro _; rfl
  | cons x xs ih =>
    intro h
    rw [List.foldl_cons, h x (List.mem_cons_self x xs)]
    exact ih (fun b hb => h b (List.mem_cons_of_mem x hb))

/-- A fold commutes with a projection that the steps respect. -/
theorem foldl_proj (f : α → β → α) (g : γ → β → γ) (proj : α → γ)
    (h : ∀ a b, proj (f a b) = g (proj a) b) (l : List β) (init : α) :
    proj (l.foldl f init) = l.foldl g (proj init) := by
  induction l generalizing init with
  | nil => rfl
  | cons x xs ih => rw [List.foldl_cons, List.foldl_cons, ih, h]

/-- Extension is reflexive. -/
theorem netExtends_refl (net : PNet) : netExtends net net :=
  ⟨rfl, ⟨[], by simp⟩, ⟨[], by simp⟩⟩

/-- Extension is transitive. -/
theorem netExtends_trans (n1 n2 n3 : PNet) (h12 : netExtends n1 n2)
    (h23 : netExtends n2 n3) : netExtends n1 n3 := by
  obtain ⟨ht, ⟨ps, hp⟩, ⟨bs, hb⟩⟩ := h12
  obtain ⟨ht2, ⟨ps2, hp2⟩, ⟨bs2, hb2⟩⟩ := h23
  exact ⟨ht2.trans ht, ⟨ps ++ ps2, by rw [hp2, hp, List.append_assoc]⟩,
         ⟨bs ++ bs2, by rw [hb2, hb, List.append_assoc]⟩⟩

/-- Place existence survives extension. -/
theorem hasPlace_mono (n n2 : PNet) (h : netExtends n n2) (p : String)
    (hp : hasPlace n p = true) : hasPlace n2 p = true := by
  obtain ⟨-, ⟨ps, hps⟩, -⟩ := h
  unfold hasPlace at hp ⊢
  rw [hps, List.any_append, hp]
  rfl

/-- The first transition with a label is stable under extension. -/
theorem findTrans_ext (n n2 : PNet) (h : netExtends n n2) (s : String) :
    findTransWithLabel n2 s = findTransWithLabel n s := by
  unfold findTransWithLabel
  rw [h.1]

/-- Arc existence survives extension. -/
theorem hasArc_mono (n n2 : PNet) (h : netExtends n n2) (s t : Node)
    (ha : hasArc n s t = true) : hasArc n2 s t = true := by
  obtain ⟨-, -, ⟨bs, hbs⟩⟩ := h
  unfold hasArc at ha ⊢
  rw [hbs, List.any_append, ha]
  rfl

/-- An established message stays established under extension. -/
theorem msgEstablished_mono (n n2 : PNet) (h : netExtends n n2)
    (m : String × Option String × Option String) (he : msgEstablished n m) :
    msgEstablished n2 m := by
  obtain ⟨h1, h2, h3⟩ := he
  refine ⟨hasPlace_mono n n2 h _ h1, ?_, ?_⟩
  · intro s hsome tr htr
    rw [findTrans_ext n n2 h] at htr
    exact hasArc_mono n n2 h _ _ (h2 s hsome tr htr)
  · intro s hsome tr htr
    rw [findTrans_ext n n2 h] at htr
    exact hasArc_mono n n2 h _ _ (h3 s hsome tr htr)

/-- The place-creation block extends the net. -/
theorem msgPlaceStage_extends (name : String) (acc : PNet × List String) :
    netExtends acc.1 (msgPlaceStage name acc).1 := by
  unfold msgPlaceStage
  split
  · exact netExtends_refl _
  · exact ⟨rfl, ⟨[name], rfl⟩, ⟨[], by simp⟩⟩

/-- The send-arc block extends the net. -/
theorem msgSendStage_extends (name : String) (task : Option String)
    (acc : PNet × List String) : netExtends acc.1 (msgSendStage name task acc).1 := by
  unfold msgSendStage
  split
  · exact netExtends_refl _
  · split
    · exact netExtends_refl _
    · split
      · exact netExtends_refl _
      · exact ⟨rfl, ⟨[], by simp [add_arc_from_to]⟩, ⟨[_], rfl⟩⟩

/-- The receive-arc block extends the net. -/
theorem msgRecvStage_extends (name : String) (task : Option String)
    (acc : PNet × List String) : netExtends acc.1 (msgRecvStage name task acc).1 := by
  unfold msgRecvStage
  split
  · exact netExtends_refl _
  · split
    · exact netExtends_refl _
    · split
      · exact netExtends_refl _
      · exact ⟨rfl, ⟨[], by simp [add_arc_from_to]⟩, ⟨[_], rfl⟩⟩

/-- One message-repair iteration extends the net. -/
theorem repairMessageStep_extends (acc : PNet × List String)
    (m : String × Option String × Option String) :
    netExtends acc.1 (repairMessageStep acc m).1 := by
  unfold repairMessageStep
  exact netExtends_trans _ _ _
    (netExtends_trans _ _ _ (msgPlaceStage_extends _ _) (msgSendStage_extends _ _ _))
    (msgRecvStage_extends _ _ _)

/-- After the place-creation block the message place exists. -/
theorem msgPlaceStage_hasPlace (name : String) (acc : PNet × List String) :
    hasPlace (msgPlaceStage name acc).1 name = true := by
  unfold msgPlaceStage
  split
  · next h => exact h
  · unfold hasPlace
    dsimp only
    rw [List.any_append]
    simp

/-- After the send-arc block the send arc of the found transition exists. -/
theorem msgSendStage_est (name s : String) (acc : PNet × List String) (tr : Transition)
    (htr : findTransWithLabel acc.1 s = some tr) :
    hasArc (msgSendStage name (some s) acc).1
      (Node.trans tr.name) (Node.place name) = true := by
  unfold msgSendStage
  dsimp only
  rw [htr]
  dsimp only
  split
  · next h => exact h
  · unfold hasArc add_arc_from_to
    dsimp only
    rw [List.any_append]
    simp

/-- After the receive-arc block the receive arc of the found transition
exists. -/
theorem msgRecvStage_est (name s : String) (acc : PNet × List String) (tr : Transition)
    (htr : findTransWithLabel acc.1 s = some tr) :
    hasArc (msgRecvStage name (some s) acc).1
      (Node.place name) (Node.trans tr.name) = true := by
  unfold msgRecvStage
  dsimp only
  rw [htr]
  dsimp only
  split
  · next h => exact h
  · unfold hasArc add_arc_from_to
    dsimp only
    rw [List.any_append]
    simp

/-- One message-repair iteration establishes its message. -/
theorem repairMessageStep_est (acc : PNet × List String)
    (m : String × Option String × Option String) :
    msgEstablished (repairMessageStep acc m).1 m := by
  obtain ⟨mid, msend, mrecv⟩ := m
  unfold repairMessageStep
  dsimp only
  have e2 : netExtends (msgPlaceStage ("MSG:" ++ mid) acc).1
      (msgSendStage ("MSG:" ++ mid) msend (msgPlaceStage ("MSG:" ++ mid) acc)).1 :=
    msgSendStage_extends _ _ _
  have e3 : netExtends
      (msgSendStage ("MSG:" ++ mid) msend (msgPlaceStage ("MSG:" ++ mid) acc)).1
      (msgRecvStage ("MSG:" ++ mid) mrecv
        (msgSendStage ("MSG:" ++ mid) msend (msgPlaceStage ("MSG:" ++ mid) acc))).1 :=
    msgRecvStage_extends _ _ _
  refine ⟨?_, ?_, ?_⟩
  · exact hasPlace_mono _ _ (netExtends_trans _ _ _ e2 e3) _
      (msgPlaceStage_hasPlace ("MSG:" ++ mid) acc)
  · intro s hsome tr htr
    subst hsome
    rw [findTrans_ext _ _ e3, findTrans_ext _ _ e2] at htr
    exact hasArc_mono _ _ e3 _ _ (msgSendStage_est ("MSG:" ++ mid) s _ tr htr)
  · intro s hsome tr htr
    subst hsome
    rw [findTrans_ext _ _ e3, findTrans_ext _ _ e2] at htr
    refine msgRecvStage_est ("MSG:" ++ mid) s _ tr ?_
    rw [findTrans_ext _ _ e2]
    exact htr

/-- The place-creation block is the identity when the place exists. -/
theorem msgPlaceStage_id (name : String) (acc : PNet × List String)
    (h : hasPlace acc.1 name = true) : msgPlaceStage name acc = acc := by
  unfold msgPlaceStage
  simp [h]

/-- The send-arc block is the identity when the send arc of the found
transition exists. -/
theorem msgSendStage_id (name : String) (task : Option String) (acc : PNet × List String)
    (h : ∀ s, task = some s → ∀ tr, findTransWithLabel acc.1 s = some tr →
      hasArc acc.1 (Node.trans tr.name) (Node.place name) = true) :
    msgSendStage name task acc = acc := by
  unfold msgSendStage
  cases task with
  | none => rfl
  | some s =>
    dsimp only
    cases hf : findTransWithLabel acc.1 s with
    | none => rfl
    | some tr =>
      have harc := h s rfl tr hf
      simp [harc]

/-- The receive-arc block is the identity when the receive arc of the found
transition exists. -/
theorem msgRecvStage_id (name : String) (task : Option String) (acc : PNet × List String)
    (h : ∀ s, task = some s → ∀ tr, findTransWithLabel acc.1 s = some tr →
      hasArc acc.1 (Node.place name) (Node.trans tr.name) = true) :
    msgRecvStage name task acc = acc := by
  unfold msgRecvStage
  cases task with
  | none => rfl
  | some s =>
    dsimp only
    cases hf : findTransWithLabel acc.1 s with
    | none => rfl
    | some tr =>
      have harc := h s rfl tr hf
      simp [harc]

/-- One message-repair iteration is the identity on an established
message. -/
theorem repairMessageStep_id (acc : PNet × List String)
    (m : String × Option String × Option String) (h : msgEstablished acc.1 m) :
    repairMessageStep acc m = acc := by
  obtain ⟨h1, h2, h3⟩ := h
  unfold repairMessageStep
  rw [msgPlaceStage_id _ _ h1, msgSendStage_id _ _ _ h2, msgRecvStage_id _ _ _ h3]

/-- After `repair_message_arcs` every message is established. -/
theorem repair_message_arcs_est (net : PNet)
    (messages : List (String × Option String × Option String)) :
    ∀ m ∈ messages, msgEstablished (repair_message_arcs net messages).1 m := by
  unfold repair_message_arcs
  exact foldl_establishes repairMessageStep
    (fun a b => netExtends a.1 b.1)
    (fun a m => msgEstablished a.1 m) messages (net, [])
    (fun a => netExtends_refl _)
    (fun a b c hab hbc => netExtends_trans _ _ _ hab hbc)
    (fun a b => repairMessageStep_extends a b)
    (fun a b => repairMessageStep_est a b)
    (fun a a2 b hext he => msgEstablished_mono _ _ hext b he)

/-- On a net whose messages are all established `repair_message_arcs` is
the identity. -/
theorem repair_message_arcs_id (net : PNet)
    (messages : List (String × Option String × Option String))
    (h : ∀ m ∈ messages, msgEstablished net m) :
    repair_message_arcs net messages = (net, []) := by
  unfold repair_message_arcs
  exact foldl_id_of _ _ _ (fun m hm => repairMessageStep_id _ m (h m hm))

/-- An established resource stays established under extension. -/
theorem resEstablished_mono (n n2 : PNet) (h : netExtends n n2)
    (r : String × List String × List String) (he : resEstablished n r) :
    resEstablished n2 r := by
  obtain ⟨h1, h2, h3⟩ := he
  refine ⟨hasPlace_mono n n2 h _ h1, ?_, ?_⟩
  · intro task htask tr htr
    rw [findTrans_ext n n2 h] at htr
    exact hasArc_mono n n2 h _ _ (h2 task htask tr htr)
  · intro task htask tr htr
    rw [findTrans_ext n n2 h] at htr
    exact hasArc_mono n n2 h _ _ (h3 task htask tr htr)

/-- The resource place block extends the net. -/
theorem resPlaceStage_extends (name : String) (cap : Nat)
    (acc : PNet × Marking × List String) :
    netExtends acc.1 (resPlaceStage name cap acc).1 := by
  unfold resPlaceStage
  split
  · exact netExtends_refl _
  · exact ⟨rfl, ⟨[name], rfl⟩, ⟨[], by simp⟩⟩

/-- After the resource place block the place exists. -/
theorem resPlaceStage_hasPlace (name : String) (cap : Nat)
    (acc : PNet × Marking × List String) :
    hasPlace (resPlaceStage name cap acc).1 name = true := by
  unfold resPlaceStage
  split
  · next h => exact h
  · unfold hasPlace
    dsimp only
    rw [List.any_append]
    simp

/-- The resource place block is the identity when the place exists. -/
theorem resPlaceStage_id (name : String) (cap : Nat)
    (acc : PNet × Marking × List String) (h : hasPlace acc.1 name = true) :
    resPlaceStage name cap acc = acc := by
  unfold resPlaceStage
  simp [h]

/-- The guarded request-arc block extends the net. -/
theorem repairReqArcStep_extends (name : String) (acc : PNet × List String)
    (task : String) : netExtends acc.1 (repairReqArcStep name acc task).1 := by
  unfold repairReqArcStep
  split
  · exact netExtends_refl _
  · split
    · exact netExtends_refl _
    · exact ⟨rfl, ⟨[], by simp [add_arc_from_to]⟩, ⟨[_], rfl⟩⟩

/-- The guarded release-arc block extends the net. -/
theorem repairRelArcStep_extends (name : String) (acc : PNet × List String)
    (task : String) : netExtends acc.1 (repairRelArcStep name acc task).1 := by
  unfold repairRelArcStep
  split
  · exact netExtends_refl _
  · split
    · exact netExtends_refl _
    · exact ⟨rfl, ⟨[], by simp [add_arc_from_to]⟩, ⟨[_], rfl⟩⟩

/-- After the request-arc block the request arc of the found transition
exists. -/
theorem repairReqArcStep_est (name : String) (acc : PNet × List String)
    (task : String) (tr : Transition)
    (htr : findTransWithLabel acc.1 task = some tr) :
    hasArc (repairReqArcStep name acc task).1
      (Node.place name) (Node.trans tr.name) = true := by
  unfold repairReqArcStep
  rw [htr]
  dsimp only
  split
  · next h => exact h
  · unfold hasArc add_arc_from_to
    dsimp only
    rw [List.any_append]
    simp

/-- After the release-arc block the release arc of the found transition
exists. -/
theorem repairRelArcStep_est (name : String) (acc : PNet × List String)
    (task : String) (tr : Transition)
    (htr : findTransWithLabel acc.1 task = some tr) :
    hasArc (repairRelArcStep name acc task).1
      (Node.trans tr.name) (Node.place name) = true := by
  unfold repairRelArcStep
  rw [htr]
  dsimp only
  split
  · next h => exact h
  · unfold hasArc add_arc_from_to
    dsimp only
    rw [List.any_append]
    simp

/-- The request-arc block is the identity when the arc of the found
transition exists. -/
theorem repairReqArcStep_id (name : String) (acc : PNet × List String)
    (task : String)
    (h : ∀ tr, findTransWithLabel acc.1 task = some tr →
      hasArc acc.1 (Node.place name) (Node.trans tr.name) = true) :
    repairReqArcStep name acc task = acc := by
  unfold repairReqArcStep
  cases hf : findTransWithLabel acc.1 task with
  | none => rfl
  | some tr => simp [h tr hf]

/-- The release-arc block is the identity when the arc of the found
transition exists. -/
theorem repairRelArcStep_id (name : String) (acc : PNet × List String)
    (task : String)
    (h : ∀ tr, findTransWithLabel acc.1 task = some tr →
      hasArc acc.1 (Node.trans tr.name) (Node.place name) = true) :
    repairRelArcStep name acc task = acc := by
  unfold repairRelArcStep
  cases hf : findTransWithLabel acc.1 task with
  | none => rfl
  | some tr => simp [h tr hf]

/-- One resource-repair iteration extends the net. -/
theorem repairResourceStep_extends (cap : Nat) (acc : PNet × Marking × List String)
    (r : String × List String × List String) :
    netExtends acc.1 (repairResourceStep cap acc r).1 := by
  obtain ⟨rid, req, rel⟩ := r
  unfold repairResourceStep
  dsimp only
  have e1 := resPlaceStage_extends ("RES:" ++ rid) cap acc
  have e2 : netExtends (resPlaceStage ("RES:" ++ rid) cap acc).1
      (req.foldl (repairReqArcStep ("RES:" ++ rid))
        ((resPlaceStage ("RES:" ++ rid) cap acc).1,
         (resPlaceStage ("RES:" ++ rid) cap acc).2.2)).1 :=
    foldl_extends _ (fun (a b : PNet × List String) => netExtends a.1 b.1) _ _
      (fun a => netExtends_refl _) (fun a b c hab hbc => netExtends_trans _ _ _ hab hbc)
      (fun a b => repairReqArcStep_extends _ a b)
  have e3 : netExtends
      (req.foldl (repairReqArcStep ("RES:" ++ rid))
        ((resPlaceStage ("RES:" ++ rid) cap acc).1,
         (resPlaceStage ("RES:" ++ rid) cap acc).2.2)).1
      (rel.foldl (repairRelArcStep ("RES:" ++ rid))
        (req.foldl (repairReqArcStep ("RES:" ++ rid))
          ((resPlaceStage ("RES:" ++ rid) cap acc).1,
           (resPlaceStage ("RES:" ++ rid) cap acc).2.2))).1 :=
    foldl_extends _ (fun (a b : PNet × List String) => netExtends a.1 b.1) _ _
      (fun a => netExtends_refl _) (fun a b c hab hbc => netExtends_trans _ _ _ hab hbc)
      (fun a b => repairRelArcStep_extends _ a b)
  exact netExtends_trans _ _ _ e1 (netExtends_trans _ _ _ e2 e3)

/-- One resource-repair iteration establishes its resource. -/
theorem repairResourceStep_est (cap : Nat) (acc : PNet × Marking × List String)
    (r : String × List String × List String) :
    resEstablished (repairResourceStep cap acc r).1 r := by
  obtain ⟨rid, req, rel⟩ := r
  unfold repairResourceStep
  dsimp only
  have e2 : netExtends (resPlaceStage ("RES:" ++ rid) cap acc).1
      (req.foldl (repairReqArcStep ("RES:" ++ rid))
        ((resPlaceStage ("RES:" ++ rid) cap acc).1,
         (resPlaceStage ("RES:" ++ rid) cap acc).2.2)).1 :=
    foldl_extends _ (fun (a b : PNet × List String) => netExtends a.1 b.1) _ _
      (fun a => netExtends_refl _) (fun a b c hab hbc => netExtends_trans _ _ _ hab hbc)
      (fun a b => repairReqArcStep_extends _ a b)
  have e3 : netExtends
      (req.foldl (repairReqArcStep ("RES:" ++ rid))
        ((resPlaceStage ("RES:" ++ rid) cap acc).1,
         (resPlaceStage ("RES:" ++ rid) cap acc).2.2)).1
      (rel.foldl (repairRelArcStep ("RES:" ++ rid))
        (req.foldl (repairReqArcStep ("RES:" ++ rid))
          ((resPlaceStage ("RES:" ++ rid) cap acc).1,
           (resPlaceStage ("RES:" ++ rid) cap acc).2.2))).1 :=
    foldl_extends _ (fun (a b : PNet × List String) => netExtends a.1 b.1) _ _
      (fun a => netExtends_refl _) (fun a b c hab hbc => netExtends_trans _ _ _ hab hbc)
      (fun a b => repairRelArcStep_extends _ a b)
  have hreq : ∀ task ∈ req, ∀ tr,
      findTransWithLabel
        (req.foldl (repairReqArcStep ("RES:" ++ rid))
          ((resPlaceStage ("RES:" ++ rid) cap acc).1,
           (resPlaceStage ("RES:" ++ rid) cap acc).2.2)).1 task = some tr →
      hasArc
        (req.foldl (repairReqArcStep ("RES:" ++ rid))
          ((resPlaceStage ("RES:" ++ rid) cap acc).1,
           (resPlaceStage ("RES:" ++ rid) cap acc).2.2)).1
        (Node.place ("RES:" ++ rid)) (Node.trans tr.name) = true :=
    foldl_establishes (repairReqArcStep ("RES:" ++ rid))
      (fun (a b : PNet × List String) => netExtends a.1 b.1)
      (fun (a : PNet × List String) (task : String) => ∀ tr,
        findTransWithLabel a.1 task = some tr →
        hasArc a.1 (Node.place ("RES:" ++ rid)) (Node.trans tr.name) = true)
      req _
      (fun a => netExtends_refl _)
      (fun a b c hab hbc => netExtends_trans _ _ _ hab hbc)
      (fun a b => repairReqArcStep_extends _ a b)
      (fun a b tr htr => by
        rw [findTrans_ext _ _ (repairReqArcStep_extends ("RES:" ++ rid) a b)] at htr
        exact repairReqArcStep_est _ a b tr htr)
      (fun a a2 b hext he tr htr => by
        rw [findTrans_ext _ _ hext] at htr
        exact hasArc_mono _ _ hext _ _ (he tr htr))
  have hrel : ∀ task ∈ rel, ∀ tr,
      findTransWithLabel
        (rel.foldl (repairRelArcStep ("RES:" ++ rid))
          (req.foldl (repairReqArcStep ("RES:" ++ rid))
            ((resPlaceStage ("RES:" ++ rid) cap acc).1,
             (resPlaceStage ("RES:" ++ rid) cap acc).2.2))).1 task = some tr →
      hasArc
        (rel.foldl (repairRelArcStep ("RES:" ++ rid))
          (req.foldl (repairReqArcStep ("RES:" ++ rid))
            ((resPlaceStage ("RES:" ++ rid) cap acc).1,
             (resPlaceStage ("RES:" ++ rid) cap acc).2.2))).1
        (Node.trans tr.name) (Node.place ("RES:" ++ rid)) = true :=
    foldl_establishes (repairRelArcStep ("RES:" ++ rid))
      (fun (a b : PNet × List String) => netExtends a.1 b.1)
      (fun (a : PNet × List String) (task : String) => ∀ tr,
        findTransWithLabel a.1 task = some tr →
        hasArc a.1 (Node.trans tr.name) (Node.place ("RES:" ++ rid)) = true)
      rel _
      (fun a => netExtends_refl _)
      (fun a b c hab hbc => netExtends_trans _ _ _ hab hbc)
      (fun a b => repairRelArcStep_extends _ a b)
      (fun a b tr htr => by
        rw [findTrans_ext _ _ (repairRelArcStep_extends ("RES:" ++ rid) a b)] at htr
        exact repairRelArcStep_est _ a b tr htr)
      (fun a a2 b hext he tr htr => by
        rw [findTrans_ext _ _ hext] at htr
        exact hasArc_mono _ _ hext _ _ (he tr htr))
  refine ⟨?_, ?_, ?_⟩
  · exact hasPlace_mono _ _ (netExtends_trans _ _ _ e2 e3) _
      (resPlaceStage_hasPlace ("RES:" ++ rid) cap acc)
  · intro task htask tr htr
    rw [findTrans_ext _ _ e3] at htr
    exact hasArc_mono _ _ e3 _ _ (hreq task htask tr htr)
  · intro task htask tr htr
    exact hrel task htask tr htr

/-- One resource-repair iteration is the identity on an established
resource. -/
theorem repairResourceStep_id (cap : Nat) (acc : PNet × Marking × List String)
    (r : String × List String × List String) (h : resEstablished acc.1 r) :
    repairResourceStep cap acc r = acc := by
  obtain ⟨rid, req, rel⟩ := r
  obtain ⟨h1, h2, h3⟩ := h
  unfold repairResourceStep
  dsimp only
  rw [resPlaceStage_id _ _ _ h1]
  rw [foldl_id_of _ _ _ (fun task htask => repairReqArcStep_id _ _ task (h2 task htask))]
  rw [foldl_id_of _ _ _ (fun task htask => repairRelArcStep_id _ _ task (h3 task htask))]

/-- After `repair_resource_arcs` every resource is established. -/
theorem repair_resource_arcs_est (net : PNet)
    (resources : List (String × List String × List String))
    (im : Marking) (cap : Nat) :
    ∀ r ∈ resources, resEstablished (repair_resource_arcs net resources im cap).1 r := by
  unfold repair_resource_arcs
  exact foldl_establishes (repairResourceStep cap)
    (fun (a b : PNet × Marking × List String) => netExtends a.1 b.1)
    (fun (a : PNet × Marking × List String) r => resEstablished a.1 r)
    resources (net, im, [])
    (fun a => netExtends_refl _)
    (fun a b c hab hbc => netExtends_trans _ _ _ hab hbc)
    (fun a b => repairResourceStep_extends cap a b)
    (fun a b => repairResourceStep_est cap a b)
    (fun a a2 b hext he => resEstablished_mono _ _ hext b he)

/-- On a net whose resources are all established `repair_resource_arcs` is
the identity on the net and the marking. -/
theorem repair_resource_arcs_id (net : PNet)
    (resources : List (String × List String × List String))
    (im : Marking) (cap : Nat)
    (h : ∀ r ∈ resources, resEstablished net r) :
    repair_resource_arcs net resources im cap = (net, im, []) := by
  unfold repair_resource_arcs
  exact foldl_id_of _ _ _ (fun r hr => repairResourceStep_id cap _ r (h r hr))

/-- Setting a key makes it present. -/
theorem markingSet_hasKey (m : Marking) (k : String) (v : Nat) :
    markingHasKey (markingSet m k v) k = true := by
  unfold markingSet
  split
  · next h =>
    unfold markingHasKey at h ⊢
    rw [List.any_eq_true] at h ⊢
    obtain ⟨q, hq, hqk⟩ := h
    refine ⟨if q.1 == k then (k, v) else q, List.mem_map_of_mem _ hq, ?_⟩
    rw [hqk]
    simp
  · unfold markingHasKey
    rw [List.any_append]
    simp

/-- Setting any key keeps an already-present key present. -/
theorem markingSet_hasKey_mono (m : Marking) (k k2 : String) (v : Nat)
    (h : markingHasKey m k = true) :
    markingHasKey (markingSet m k2 v) k = true := by
  unfold markingSet
  split
  · unfold markingHasKey at h ⊢
    rw [List.any_eq_true] at h ⊢
    obtain ⟨q, hq, hqk⟩ := h
    refine ⟨if q.1 == k2 then (k2, v) else q, List.mem_map_of_mem _ hq, ?_⟩
    by_cases hq2 : (q.1 == k2) = true
    · rw [if_pos hq2]
      have hk2k : k2 = k := (eq_of_beq hq2).symm.trans (eq_of_beq hqk)
      simp [hk2k]
    · rw [if_neg hq2]
      exact hqk
  · unfold markingHasKey at h ⊢
    rw [List.any_append, h]
    rfl

/-- After setting a key, every entry with that key holds the new value. -/
theorem markingSet_pinned (m : Marking) (k : String) (v : Nat) :
    markingPinned (markingSet m k v) k v := by
  unfold markingSet
  split
  · intro q hq hqk
    rw [List.mem_map] at hq
    obtain ⟨q0, hq0, hq0eq⟩ := hq
    by_cases h0 : (q0.1 == k) = true
    · rw [if_pos h0] at hq0eq
      exact hq0eq.symm
    · rw [if_neg h0] at hq0eq
      subst hq0eq
      exact absurd (beq_of_eq hqk) h0
  · next h =>
    intro q hq hqk
    rcases List.mem_append.mp hq with hq | hq
    · exfalso
      refine h ?_
      unfold markingHasKey
      rw [List.any_eq_true]
      exact ⟨q, hq, beq_of_eq hqk⟩
    · rcases List.mem_singleton.mp hq with rfl
      rfl

/-- Setting any key to the same value keeps a pinned key pinned. -/
theorem markingSet_pinned_mono (m : Marking) (k k2 : String) (v : Nat)
    (h : markingPinned m k v) : markingPinned (markingSet m k2 v) k v := by
  unfold markingSet
  split
  · intro q hq hqk
    rw [List.mem_map] at hq
    obtain ⟨q0, hq0, hq0eq⟩ := hq
    by_cases h0 : (q0.1 == k2) = true
    · rw [if_pos h0] at hq0eq
      have hq2 : q = (k2, v) := hq0eq.symm
      rw [hq2] at hqk ⊢
      simp only at hqk
      rw [hqk]
    · rw [if_neg h0] at hq0eq
      subst hq0eq
      exact h q0 hq0 hqk
  · intro q hq hqk
    rcases List.mem_append.mp hq with hq | hq
    · exact h q hq hqk
    · rcases List.mem_singleton.mp hq with rfl
      simp only at hqk
      rw [hqk]

/-- Setting a present key to the value every entry of that key already
holds changes nothing. -/
theorem markingSet_id (m : Marking) (k : String) (v : Nat)
    (hp : markingPinned m k v) (hk : markingHasKey m k = true) :
    markingSet m k v = m := by
  unfold markingSet
  rw [if_pos hk]
  have hfix : ∀ q ∈ m, (if q.1 == k then (k, v) else q) = q := by
    intro q hq
    by_cases h0 : (q.1 == k) = true
    · rw [if_pos h0]
      exact (hp q hq (eq_of_beq h0)).symm
    · rw [if_neg h0]
  calc m.map (fun q => if q.1 == k then (k, v) else q)
      = m.map (fun q => q) := List.map_congr_left hfix
    _ = m := List.map_id' m

/-- The marking component of one capacity-adjustment iteration depends only
on the marking. -/
theorem adjustCapacityStep_marking (net : PNet) (cap : Nat)
    (acc : Marking × List String) (r : String × List String × List String) :
    (adjustCapacityStep net cap acc r.1).1 =
      (match net.places.find? (fun p => p == ("RES:" ++ r.1)) with
       | some place => markingSet acc.1 place cap
       | none => acc.1) := by
  unfold adjustCapacityStep
  dsimp only
  cases net.places.find? (fun p => p == ("RES:" ++ r.1)) <;> rfl

/-- The marking returned by `adjust_resource_capacity` is the fold of the
per-resource marking update. -/
theorem adjust_resource_capacity_marking (net : PNet) (im : Marking)
    (resources : List (String × List String × List String)) (cap : Nat) :
    (adjust_resource_capacity net im resources cap).2.1 =
      resources.foldl
        (fun (m : Marking) (r : String × List String × List String) =>
          match net.places.find? (fun p => p == ("RES:" ++ r.1)) with
          | some place => markingSet m place cap
          | none => m) im := by
  unfold adjust_resource_capacity
  dsimp only
  exact foldl_proj (fun acc r => adjustCapacityStep net cap acc r.1)
    (fun (m : Marking) (r : String × List String × List String) =>
      match net.places.find? (fun p => p == ("RES:" ++ r.1)) with
      | some place => markingSet m place cap
      | none => m)
    (fun (x : Marking × List String) => x.1)
    (fun a b => adjustCapacityStep_marking net cap a b) resources (im, [])

/-- A found resource place is the searched name. -/
theorem find_res_place_eq (net : PNet) (name place : String)
    (hf : net.places.find? (fun p => p == name) = some place) : place = name := by
  have hb := List.find?_some hf
  exact eq_of_beq hb

/-- After the marking fold every resource place key that exists in the net
is present and pinned to the capacity. -/
theorem adjustFold_est (net : PNet) (cap : Nat)
    (resources : List (String × List String × List String)) (im : Marking) :
    ∀ r ∈ resources,
      net.places.find? (fun p => p == ("RES:" ++ r.1)) = none ∨
      (markingHasKey
          (resources.foldl
            (fun (m : Marking) (r : String × List String × List String) =>
              match net.places.find? (fun p => p == ("RES:" ++ r.1)) with
              | some place => markingSet m place cap
              | none => m) im) ("RES:" ++ r.1) = true ∧
       markingPinned
          (resources.foldl
            (fun (m : Marking) (r : String × List String × List String) =>
              match net.places.find? (fun p => p == ("RES:" ++ r.1)) with
              | some place => markingSet m place cap
              | none => m) im) ("RES:" ++ r.1) cap) := by
  refine foldl_establishes _
    (fun (m m2 : Marking) => ∀ k,
      (markingHasKey m k = true → markingHasKey m2 k = true) ∧
      (markingPinned m k cap → markingPinned m2 k cap))
    (fun (m : Marking) (r : String × List String × List String) =>
      net.places.find? (fun p => p == ("RES:" ++ r.1)) = none ∨
      (markingHasKey m ("RES:" ++ r.1) = true ∧
       markingPinned m ("RES:" ++ r.1) cap))
    resources im
    (fun m k => ⟨id, id⟩)
    (fun a b c hab hbc k => ⟨fun h => (hbc k).1 ((hab k).1 h),
                             fun h => (hbc k).2 ((hab k).2 h)⟩)
    ?_ ?_ ?_
  · intro m r k
    cases hf : net.places.find? (fun p => p == ("RES:" ++ r.1)) with
    | none => exact ⟨id, id⟩
    | some place =>
      exact ⟨fun h => markingSet_hasKey_mono m k place cap h,
             fun h => markingSet_pinned_mono m k place cap h⟩
  · intro m r
    cases hf : net.places.find? (fun p => p == ("RES:" ++ r.1)) with
    | none => exact Or.inl rfl
    | some place =>
      right
      rcases find_res_place_eq net _ place hf with rfl
      exact ⟨markingSet_hasKey m _ cap, markingSet_pinned m _ cap⟩
  · intro m m2 r hext he
    rcases he with he | ⟨hk, hp⟩
    · exact Or.inl he
    · exact Or.inr ⟨(hext _).1 hk, (hext _).2 hp⟩

/-- The marking fold is the identity when every resource key that exists is
already present and pinned to the capacity. -/
theorem adjustFold_id (net : PNet) (cap : Nat)
    (resources : List (String × List String × List String)) (im : Marking)
    (h : ∀ r ∈ resources,
      net.places.find? (fun p => p == ("RES:" ++ r.1)) = none ∨
      (markingHasKey im ("RES:" ++ r.1) = true ∧
       markingPinned im ("RES:" ++ r.1) cap)) :
    resources.foldl
      (fun (m : Marking) (r : String × List String × List String) =>
        match net.places.find? (fun p => p == ("RES:" ++ r.1)) with
        | some place => markingSet m place cap
        | none => m) im = im := by
  refine foldl_id_of _ _ _ ?_
  intro r hr
  cases hf : net.places.find? (fun p => p == ("RES:" ++ r.1)) with
  | none => rfl
  | some place =>
    rcases find_res_place_eq net _ place hf with rfl
    rcases h r hr with hnone | ⟨hk, hp⟩
    · rw [hnone] at hf
      exact Option.noConfusion hf
    · exact markingSet_id im _ cap hp hk

/-- Erasing, in turn, every element of a sub-multiset subtracts its
multiplicities. -/
theorem count_foldl_erase {α : Type} [DecidableEq α] (R : List α) :
    ∀ (l : List α), (∀ v, R.count v ≤ l.count v) →
      ∀ v, (R.foldl (fun acc x => acc.erase x) l).count v = l.count v - R.count v := by
  induction R with
  | nil =>
    intro l _ v
    simp
  | cons r rs ih =>
    intro l h v
    rw [List.foldl_cons]
    have hfalse : ¬(false = true) := fun hh => Bool.noConfusion hh
    have hrl : r ∈ l := by
      have hr := h r
      rw [List.count_cons_self] at hr
      exact List.count_pos_iff.mp (Nat.lt_of_lt_of_le (Nat.succ_pos _) hr)
    have hcount : ∀ w, rs.count w ≤ (l.erase r).count w := by
      intro w
      rw [List.count_erase]
      have hw := h w
      rw [List.count_cons] at hw
      by_cases hwr : w = r
      · subst hwr
        rw [beq_self_eq_true] at hw ⊢
        rw [if_pos rfl] at hw ⊢
        omega
      · have hb : (r == w) = false := by
          simp only [beq_eq_false_iff_ne, ne_eq]
          exact fun hh => hwr hh.symm
        rw [hb] at hw ⊢
        rw [if_neg hfalse] at hw ⊢
        omega
    rw [ih (l.erase r) hcount v, List.count_erase, List.count_cons]
    by_cases hvr : v = r
    · subst hvr
      rw [beq_self_eq_true, if_pos rfl]
      omega
    · have hb : (r == v) = false := by
        simp only [beq_eq_false_iff_ne, ne_eq]
        exact fun hh => hvr hh.symm
      rw [hb, if_neg hfalse]
      omega

/-- Removing one `RES:` place erases exactly it from the place list. -/
theorem removeResPlaceStep_places (acc : PNet × Marking × List String) (p : String) :
    (removeResPlaceStep acc p).1.places = acc.1.places.erase p := by
  unfold removeResPlaceStep
  rfl

/-- The places left by `remove_resource_constraints` are those of the input
minus, in turn, every `RES:`-prefixed place. -/
theorem remove_resource_constraints_places (net : PNet) (im : Marking) :
    (remove_resource_constraints net im).1.places =
      (net.places.filter (fun p => p.startsWith "RES:")).foldl
        (fun acc x => acc.erase x) net.places := by
  unfold remove_resource_constraints
  dsimp only
  exact foldl_proj removeResPlaceStep (fun acc x => acc.erase x)
    (fun (x : PNet × Marking × List String) => x.1.places)
    (fun a b => removeResPlaceStep_places a b) _ (net, im, [])

/-- After `remove_resource_constraints` no place carries the `RES:`
prefix. -/
theorem remove_resource_constraints_no_res (net : PNet) (im : Marking) :
    ∀ p ∈ (remove_resource_constraints net im).1.places,
      p.startsWith "RES:" = false := by
  intro p hp
  by_cases hres : p.startsWith "RES:" = true
  · exfalso
    rw [remove_resource_constraints_places] at hp
    have hcount := count_foldl_erase
      (net.places.filter (fun q => q.startsWith "RES:")) net.places
      (fun v => (List.filter_sublist _).count_le v) p
    have hfil : (net.places.filter (fun q => q.startsWith "RES:")).count p =
        net.places.count p :=
      List.count_filter (show (fun q => q.startsWith "RES:") p = true from hres)
    have hpos := List.count_pos_iff.mpr hp
    rw [hcount, hfil] at hpos
    omega
  · exact Bool.not_eq_true _ |>.mp hres

/-- On a net with no `RES:` place, `remove_resource_constraints` is the
identity on the net and the marking. -/
theorem remove_resource_constraints_id (net : PNet) (im : Marking)
    (h : ∀ p ∈ net.places, p.startsWith "RES:" = false) :
    remove_resource_constraints net im = (net, im, []) := by
  unfold remove_resource_constraints
  dsimp only
  have hfil : net.places.filter (fun p => p.startsWith "RES:") = [] := by
    rw [List.filter_eq_nil_iff]
    intro p hp
    simp [h p hp]
  rw [hfil]
  rfl

/-- Redirecting arcs never touches the transitions. -/
theorem mergeSecondaryArcs_transitions (primary secondary : String) (net : PNet) :
    (mergeSecondaryArcs primary secondary net).transitions = net.transitions := by
  unfold mergeSecondaryArcs
  exact foldl_net_transitions_eq _ _ _ (fun a b => by
    split
    · simp [remove_arc, add_arc_from_to]
    · split
      · simp [remove_arc, add_arc_from_to]
      · rfl)

/-- Merging one secondary erases exactly it from the transition list. -/
theorem syncMergeOne_transitions (primary : String) (n : PNet) (secondary : Transition) :
    (syncMergeOne primary n secondary).transitions = n.transitions.erase secondary := by
  unfold syncMergeOne
  dsimp only
  rw [mergeSecondaryArcs_transitions]

/-- Erasing elements never raises a predicate count. -/
theorem countP_foldl_erase_le {α : Type} [DecidableEq α] (q : α → Bool)
    (R : List α) : ∀ (l : List α),
    ((R.foldl (fun acc x => acc.erase x) l).countP q) ≤ l.countP q := by
  induction R with
  | nil => intro l; exact le_refl _
  | cons r rs ih =>
    intro l
    rw [List.foldl_cons]
    exact le_trans (ih (l.erase r)) ((List.erase_sublist r l).countP_le q)

/-- Erasing, in turn, a sub-multiset all of whose elements satisfy the
predicate lowers its count by the number erased. -/
theorem countP_foldl_erase_eq {α : Type} [DecidableEq α] (q : α → Bool) (R : List α) :
    ∀ (l : List α), (∀ v, R.count v ≤ l.count v) → (∀ r ∈ R, q r = true) →
      ((R.foldl (fun acc x => acc.erase x) l).countP q) = l.countP q - R.length := by
  induction R with
  | nil =>
    intro l _ _
    simp
  | cons r rs ih =>
    intro l h hq
    rw [List.foldl_cons]
    have hfalse : ¬(false = true) := fun hh => Bool.noConfusion hh
    have hrl : r ∈ l := by
      have hr := h r
      rw [List.count_cons_self] at hr
      exact List.count_pos_iff.mp (Nat.lt_of_lt_of_le (Nat.succ_pos _) hr)
    have hcount : ∀ w, rs.count w ≤ (l.erase r).count w := by
      intro w
      rw [List.count_erase]
      have hw := h w
      rw [List.count_cons] at hw
      by_cases hwr : w = r
      · subst hwr
        rw [beq_self_eq_true] at hw ⊢
        rw [if_pos rfl] at hw ⊢
        omega
      · have hb : (r == w) = false := by
          simp only [beq_eq_false_iff_ne, ne_eq]
          exact fun hh => hwr hh.symm
        rw [hb] at hw ⊢
        rw [if_neg hfalse] at hw ⊢
        omega
    have hstep : (l.erase r).countP q = l.countP q - 1 := by
      have hperm := List.perm_cons_erase hrl
      have hcp := hperm.countP_eq q
      rw [List.countP_cons, hq r (List.mem_cons_self r rs)] at hcp
      rw [if_pos rfl] at hcp
      omega
    rw [ih (l.erase r) hcount (fun x hx => hq x (List.mem_cons_of_mem r hx)), hstep]
    simp only [List.length_cons]
    omega

/-- One sync-repair iteration never raises any transition count. -/
theorem repairSyncStep_countP_le (acc : PNet × List String) (s : String)
    (q : Transition → Bool) :
    (repairSyncStep acc s).1.transitions.countP q ≤ acc.1.transitions.countP q := by
  unfold repairSyncStep
  dsimp only
  cases hft : acc.1.transitions.filter (fun t => t.label == some s) with
  | nil => exact le_refl _
  | cons primary secs =>
    cases secs with
    | nil => exact le_refl _
    | cons sec1 rest =>
      dsimp only
      have hproj := foldl_proj (syncMergeOne primary.name)
        (fun (ts : List Transition) sec => ts.erase sec)
        (fun (n : PNet) => n.transitions)
        (fun a b => syncMergeOne_transitions primary.name a b) (sec1 :: rest) acc.1
      rw [hproj]
      exact countP_foldl_erase_le q (sec1 :: rest) acc.1.transitions

/-- After one sync-repair iteration its label counts at most one
transition. -/
theorem repairSyncStep_countLabel (acc : PNet × List String) (s : String) :
    countLabel (repairSyncStep acc s).1.transitions s ≤ 1 := by
  unfold repairSyncStep countLabel
  dsimp only
  cases hft : acc.1.transitions.filter (fun t => t.label == some s) with
  | nil =>
    rw [List.countP_eq_length_filter, hft]
    simp
  | cons primary secs =>
    cases secs with
    | nil =>
      rw [List.countP_eq_length_filter, hft]
      simp
    | cons sec1 rest =>
      dsimp only
      have hproj := foldl_proj (syncMergeOne primary.name)
        (fun (ts : List Transition) sec => ts.erase sec)
        (fun (n : PNet) => n.transitions)
        (fun a b => syncMergeOne_transitions primary.name a b) (sec1 :: rest) acc.1
      rw [hproj]
      have hcount : ∀ v, (sec1 :: rest).count v ≤ acc.1.transitions.count v := by
        intro v
        have h1 : (sec1 :: rest).count v ≤ (primary :: sec1 :: rest).count v := by
          nth_rewrite 2 [List.count_cons]
          exact Nat.le_add_right _ _
        have h2 : (primary :: sec1 :: rest).count v ≤ acc.1.transitions.count v := by
          rw [← hft]
          exact (List.filter_sublist _).count_le v
        exact le_trans h1 h2
      have hq : ∀ r ∈ (sec1 :: rest), (fun t => t.label == some s) r = true := by
        intro r hr
        have hmem : r ∈ acc.1.transitions.filter (fun t => t.label == some s) := by
          rw [hft]
          exact List.mem_cons_of_mem _ hr
        have hq2 := List.of_mem_filter hmem
        exact hq2
      rw [countP_foldl_erase_eq _ (sec1 :: rest) acc.1.transitions hcount hq]
      rw [List.countP_eq_length_filter, hft]
      simp only [List.length_cons]
      omega

/-- One sync-repair iteration is the identity when the label already counts
at most one transition. -/
theorem repairSyncStep_id (acc : PNet × List String) (s : String)
    (h : countLabel acc.1.transitions s ≤ 1) : repairSyncStep acc s = acc := by
  unfold repairSyncStep
  dsimp only
  cases hft : acc.1.transitions.filter (fun t => t.label == some s) with
  | nil => rfl
  | cons primary secs =>
    cases secs with
    | nil => rfl
    | cons sec1 rest =>
      exfalso
      unfold countLabel at h
      rw [List.countP_eq_length_filter, hft] at h
      simp only [List.length_cons] at h
      omega

/-- After `repair_sync_tasks` every sync label counts at most one
transition. -/
theorem repair_sync_tasks_est (net : PNet) (sync_tasks : List String) :
    ∀ s ∈ sync_tasks,
      countLabel (repair_sync_tasks net sync_tasks).1.transitions s ≤ 1 := by
  unfold repair_sync_tasks
  exact foldl_establishes repairSyncStep
    (fun (a b : PNet × List String) => ∀ q, b.1.transitions.countP q ≤ a.1.transitions.countP q)
    (fun (a : PNet × List String) s => countLabel a.1.transitions s ≤ 1)
    sync_tasks (net, [])
    (fun a q => le_refl _)
    (fun a b c hab hbc q => le_trans (hbc q) (hab q))
    (fun a b q => repairSyncStep_countP_le a b q)
    (fun a b => repairSyncStep_countLabel a b)
    (fun a a2 b hext he => le_trans (hext _) he)

/-- On a net whose sync labels each count at most one transition
`repair_sync_tasks` is the identity. -/
theorem repair_sync_tasks_id (net : PNet) (sync_tasks : List String)
    (h : ∀ s ∈ sync_tasks, countLabel net.transitions s ≤ 1) :
    repair_sync_tasks net sync_tasks = (net, []) := by
  unfold repair_sync_tasks
  exact foldl_id_of _ _ _ (fun s hs => repairSyncStep_id _ s (h s hs))

/-- Claim C6.  Every repair operator is idempotent: applying
`repair_message_arcs`, `repair_resource_arcs` with a fixed capacity,
`adjust_resource_capacity`, `remove_resource_constraints` or
`repair_sync_tasks` twice in succession yields the same places,
transitions, arcs and marking entries as applying it once. -/
theorem c6_repair_operators_idempotent :
    (∀ (net : PNet) (messages : List (String × Option String × Option String)),
      repair_message_arcs (repair_message_arcs net messages).1 messages =
        ((repair_message_arcs net messages).1, [])) ∧
    (∀ (net : PNet) (resources : List (String × List String × List String))
        (im : Marking) (cap : Nat),
      repair_resource_arcs (repair_resource_arcs net resources im cap).1 resources
          (repair_resource_arcs net resources im cap).2.1 cap =
        ((repair_resource_arcs net resources im cap).1,
         (repair_resource_arcs net resources im cap).2.1, [])) ∧
    (∀ (net : PNet) (im : Marking)
        (resources : List (String × List String × List String)) (cap : Nat),
      (adjust_resource_capacity net
          (adjust_resource_capacity net im resources cap).2.1 resources cap).1 = net ∧
      (adjust_resource_capacity net
          (adjust_resource_capacity net im resources cap).2.1 resources cap).2.1 =
        (adjust_resource_capacity net im resources cap).2.1) ∧
    (∀ (net : PNet) (im : Marking),
      remove_resource_constraints (remove_resource_constraints net im).1
          (remove_resource_constraints net im).2.1 =
        ((remove_resource_constraints net im).1,
         (remove_resource_constraints net im).2.1, [])) ∧
    (∀ (net : PNet) (sync_tasks : List String),
      repair_sync_tasks (repair_sync_tasks net sync_tasks).1 sync_tasks =
        ((repair_sync_tasks net sync_tasks).1, [])) := by
  refine ⟨?_, ?_, ?_, ?_, ?_⟩
  · intro net messages
    exact repair_message_arcs_id _ messages (repair_message_arcs_est net messages)
  · intro net resources im cap
    exact repair_resource_arcs_id _ resources _ cap
      (repair_resource_arcs_est net resources im cap)
  · intro net im resources cap
    refine ⟨rfl, ?_⟩
    rw [adjust_resource_capacity_marking, adjust_resource_capacity_marking]
    exact adjustFold_id net cap resources _ (adjustFold_est net cap resources im)
  · intro net im
    exact remove_resource_constraints_id _ _ (remove_resource_constraints_no_res net im)
  · intro net sync_tasks
    exact repair_sync_tasks_id _ sync_tasks (repair_sync_tasks_est net sync_tasks)

end CMIPIMR
